import Mathlib

/-!
Verification of the pdf-handouts PDF object-graph engine.

This file shallowly embeds the core data model and operations of the
pdf-handouts repository (src/src/pdf/merge.rs, src/src/pdf/headers.rs,
src/src/pdf/create.rs, src/src/date.rs) in Lean and proves the spec's
testable properties about them.

The repository builds on the external lopdf crate, whose sources are not
part of the repository.  Operations supplied by lopdf (object store
semantics, `renumber_objects_with`, `get_pages`, `new_object_id`) are
modelled from the specification's description of the Object Graph Store
and the Renumbering/Merge Engine; each such definition carries a doc
comment starting with "Modelled from the spec".  File IO (existence
checks, loading, saving) is abstracted by explicit function parameters:
a merge or overlay operation returns the document that would be saved,
so an error result means no output is produced.
-/

namespace PdfHandouts

/-- An indirect-object identifier: a (number, generation) pair (lopdf ObjectId). -/
abbrev ObjectId := Nat × Nat

mutual
/-- The PDF object value union (lopdf `Object`, spec §3 Object Value). -/
inductive PdfObj : Type where
  | null : PdfObj
  | boolean : Bool → PdfObj
  | integer : Int → PdfObj
  | real : ℚ → PdfObj
  | strLit : String → PdfObj
  | name : String → PdfObj
  | array : PdfObjList → PdfObj
  | dict : PdfDict → PdfObj
  | reference : ObjectId → PdfObj
  | stream : PdfDict → String → PdfObj

/-- A list of PDF objects (contents of an Array value). -/
inductive PdfObjList : Type where
  | nil : PdfObjList
  | cons : PdfObj → PdfObjList → PdfObjList

/-- A PDF dictionary: ordered key/value entries (lopdf `Dictionary`). -/
inductive PdfDict : Type where
  | nil : PdfDict
  | cons : String → PdfObj → PdfDict → PdfDict
end

/-- Dictionary lookup: the first entry with the key (lopdf `Dictionary::get`). -/
def dictGet : PdfDict → String → Option PdfObj
  | .nil, _ => none
  | .cons k v rest, key => if k = key then some v else dictGet rest key

/-- Dictionary update: replace the entry in place if the key is present,
append otherwise (lopdf `Dictionary::set`). -/
def dictSet : PdfDict → String → PdfObj → PdfDict
  | .nil, key, v => .cons key v .nil
  | .cons k v0 rest, key, v =>
    if k = key then .cons key v rest else .cons k v0 (dictSet rest key v)

/-- Convert an embedded object list to a Lean list. -/
def objListToList : PdfObjList → List PdfObj
  | .nil => []
  | .cons x xs => x :: objListToList xs

/-- Convert a Lean list of objects to an embedded object list. -/
def listToObjList : List PdfObj → PdfObjList
  | [] => .nil
  | x :: xs => .cons x (listToObjList xs)

/-- The object store: an ordered identifier → object map (lopdf
`Document::objects`, a BTreeMap; keys are unique). -/
abbrev Store := List (ObjectId × PdfObj)

/-- Store lookup: the first binding of the identifier. -/
def storeGet : Store → ObjectId → Option PdfObj
  | [], _ => none
  | (i, o) :: rest, id => if i = id then some o else storeGet rest id

/-- Store insertion: replace the binding in place if the identifier is
present, append otherwise (BTreeMap `insert`). -/
def storeInsert : Store → ObjectId → PdfObj → Store
  | [], id, o => [(id, o)]
  | (i, o0) :: rest, id, o =>
    if i = id then (id, o) :: rest else (i, o0) :: storeInsert rest id o

/-- Bulk insertion of a batch of bindings, left to right (BTreeMap `extend`). -/
def storeExtend (s : Store) : Store → Store
  | [] => s
  | (id, o) :: rest => storeExtend (storeInsert s id o) rest

/-- The identifiers bound in a store. -/
def storeKeys (s : Store) : List ObjectId := s.map Prod.fst

/-- An in-memory document: object store, highest used identifier number,
and trailer dictionary (lopdf `Document`). -/
structure Document where
  objects : Store
  maxId : Nat
  trailer : PdfDict

mutual
/-- Rewrite every Reference inside an object through an identifier map,
recursing into Arrays, Dictionaries and Stream dictionaries.  This is the
shape shared by `renumber_object_references` in src/src/pdf/merge.rs and
the reference rewriting of lopdf's renumbering. -/
def renumberObj (f : ObjectId → ObjectId) : PdfObj → PdfObj
  | .null => .null
  | .boolean b => .boolean b
  | .integer i => .integer i
  | .real q => .real q
  | .strLit s => .strLit s
  | .name n => .name n
  | .array xs => .array (renumberList f xs)
  | .dict d => .dict (renumberDict f d)
  | .reference id => .reference (f id)
  | .stream d c => .stream (renumberDict f d) c

/-- Rewrite references in every element of an object list. -/
def renumberList (f : ObjectId → ObjectId) : PdfObjList → PdfObjList
  | .nil => .nil
  | .cons x xs => .cons (renumberObj f x) (renumberList f xs)

/-- Rewrite references in every value of a dictionary. -/
def renumberDict (f : ObjectId → ObjectId) : PdfDict → PdfDict
  | .nil => .nil
  | .cons k v rest => .cons k (renumberObj f v) (renumberDict f rest)
end

/-- renumber_object_references from src/src/pdf/merge.rs: rewrite every
reference through the id map, leaving unmapped identifiers unchanged. -/
def renumber_object_references (idMap : ObjectId → Option ObjectId) (o : PdfObj) : PdfObj :=
  renumberObj (fun id => (idMap id).getD id) o

/-- Rekey and rewrite a whole store through an identifier map. -/
def mapStore (f : ObjectId → ObjectId) (s : Store) : Store :=
  s.map (fun p => (f p.1, renumberObj f p.2))

/-- Shift the number component of an identifier by a constant offset,
preserving the generation. -/
def shiftId (off : Nat) (id : ObjectId) : ObjectId := (id.1 + off, id.2)

/-- Modelled from the spec: lopdf `Document::renumber_objects_with`, used
by merge_pdfs, is not part of the repository; §4.2 describes it as
renumbering every identifier "by adding a constant offset to its number
component, rewriting every Reference value anywhere in the graph", the
trailer included, and advancing the document's highest-identifier counter
accordingly. -/
def renumber_objects_with (off : Nat) (d : Document) : Document :=
  { objects := mapStore (shiftId off) d.objects
    maxId := d.maxId + off
    trailer := renumberDict (shiftId off) d.trailer }

/-- The identifiers among an object list that are References (the page
references of a Kids array). -/
def refIds : PdfObjList → List ObjectId
  | .nil => []
  | .cons (.reference id) rest => id :: refIds rest
  | .cons _ rest => refIds rest

/-- Modelled from the spec: the page-tree walk of lopdf `get_pages` (not
part of the repository).  Depth-first worklist traversal collecting leaf
Page identifiers in order, with an explicit fuel bound as §9 prescribes
for potentially cyclic graphs. -/
def collectPagesGo (objects : Store) : Nat → List ObjectId → List ObjectId
  | 0, _ => []
  | _ + 1, [] => []
  | fuel + 1, id :: rest =>
    match storeGet objects id with
    | some (.dict d) =>
      match dictGet d "Type" with
      | some (.name ty) =>
        if ty = "Page" then id :: collectPagesGo objects fuel rest
        else if ty = "Pages" then
          match dictGet d "Kids" with
          | some (.array kids) => collectPagesGo objects fuel (refIds kids ++ rest)
          | _ => collectPagesGo objects fuel rest
        else collectPagesGo objects fuel rest
      | _ => collectPagesGo objects fuel rest
    | _ => collectPagesGo objects fuel rest

/-- Modelled from the spec: lopdf `Document::get_pages` — resolve the
trailer's Root reference to the Catalog, follow its Pages reference, and
walk the page tree collecting leaf pages in page order. -/
def getPages (d : Document) (fuel : Nat) : List ObjectId :=
  match dictGet d.trailer "Root" with
  | some (.reference rootId) =>
    match storeGet d.objects rootId with
    | some (.dict cat) =>
      match dictGet cat "Pages" with
      | some (.reference pid) => collectPagesGo d.objects fuel [pid]
      | _ => []
    | _ => []
  | _ => []

/-- Well-formedness of a loaded document: every bound identifier number is
at most `maxId` (the spec's store counter invariant as lopdf maintains it
after parsing) and identifiers are bound at most once. -/
def Document.wf (d : Document) : Prop :=
  (∀ p ∈ d.objects, p.1.1 ≤ d.maxId) ∧ (storeKeys d.objects).Nodup

instance decidableDocumentWf (d : Document) : Decidable (Document.wf d) := by
  unfold Document.wf
  infer_instance

/-- Accumulator of the merge loop in merge_pdfs (src/src/pdf/merge.rs
lines 63-81): running max_id, collected page ids, collected objects. -/
structure MergeAcc where
  maxId : Nat
  pageIds : List ObjectId
  objects : Store

/-- One iteration of the merge loop of merge_pdfs (lines 68-81): renumber
the document past the running max_id, advance max_id past its highest
identifier, record its page ids in order, absorb its objects. -/
def mergeStep (fuel : Nat) (acc : MergeAcc) (d : Document) : MergeAcc :=
  let d2 := renumber_objects_with acc.maxId d
  { maxId := d2.maxId + 1
    pageIds := acc.pageIds ++ getPages d2 fuel
    objects := storeExtend acc.objects d2.objects }

/-- The per-document merge loop of merge_pdfs (lines 63-81). -/
def mergeLoop (fuel : Nat) : MergeAcc → List Document → MergeAcc
  | acc, [] => acc
  | acc, d :: rest => mergeLoop fuel (mergeStep fuel acc d) rest

/-- Invariant carried by the merge loop: every absorbed identifier number
and every recorded page id is below the running max_id, identifiers are
bound at most once, and max_id is at least 1. -/
def AccInv (acc : MergeAcc) : Prop :=
  (∀ id ∈ storeKeys acc.objects, id.1 < acc.maxId)
  ∧ (∀ id ∈ acc.pageIds, id.1 < acc.maxId)
  ∧ (storeKeys acc.objects).Nodup
  ∧ 1 ≤ acc.maxId

/-- Build an object list of References from a list of identifiers (the
Kids array built in merge_pdfs lines 99-102). -/
def refsToObjList : List ObjectId → PdfObjList
  | [] => .nil
  | id :: rest => .cons (.reference id) (refsToObjList rest)

/-- Number of elements of an object list. -/
def objListLength : PdfObjList → Nat
  | .nil => 0
  | .cons _ rest => objListLength rest + 1

/-- The fresh Pages root dictionary built in merge_pdfs lines 104-108. -/
def pagesRootDict (pageIds : List ObjectId) : PdfDict :=
  dictSet (dictSet (dictSet .nil "Type" (.name "Pages"))
      "Count" (.integer pageIds.length))
    "Kids" (.array (refsToObjList pageIds))

/-- The fresh Catalog dictionary built in merge_pdfs lines 110-114. -/
def catalogDict (pagesId : ObjectId) : PdfDict :=
  dictSet (dictSet .nil "Type" (.name "Catalog")) "Pages" (.reference pagesId)

/-- One step of the Parent rewriting of merge_pdfs (lines 124-130): if the
page id is bound to a dictionary, set its Parent to the new Pages root;
identifiers that are absent or not bound to a dictionary are skipped. -/
def setParentStep (pagesId : ObjectId) (s : Store) (pid : ObjectId) : Store :=
  match storeGet s pid with
  | some (.dict d) => storeInsert s pid (.dict (dictSet d "Parent" (.reference pagesId)))
  | _ => s

/-- Overwrite the Parent of every collected page with the new Pages root
(merge_pdfs lines 123-130). -/
def setParents (pagesId : ObjectId) : Store → List ObjectId → Store
  | s, [] => s
  | s, pid :: rest => setParents pagesId (setParentStep pagesId s pid) rest

/-- The in-memory core of merge_pdfs (src/src/pdf/merge.rs lines 63-136,
file IO aside): run the merge loop from max_id 1, absorb all objects into
a fresh document, set its max_id to the highest absorbed identifier,
allocate the Pages root and Catalog at the two next identifiers, set the
trailer Root and rewrite every page's Parent. -/
def mergeCore (fuel : Nat) (docs : List Document) : Document :=
  let acc := mergeLoop fuel ⟨1, [], []⟩ docs
  let objects0 := storeExtend [] acc.objects
  let maxId0 := acc.maxId - 1
  let pagesId : ObjectId := (maxId0 + 1, 0)
  let catalogId : ObjectId := (maxId0 + 2, 0)
  let objects1 := storeInsert objects0 catalogId (.dict (catalogDict pagesId))
  let objects2 := storeInsert objects1 pagesId (.dict (pagesRootDict acc.pageIds))
  let objects3 := setParents pagesId objects2 acc.pageIds
  { objects := objects3
    maxId := maxId0 + 2
    trailer := dictSet .nil "Root" (.reference catalogId) }

/-- The page-id sequence recorded by the merge loop: these are exactly the
references placed in the new Pages root's Kids array. -/
def merge_page_ids (fuel : Nat) (docs : List Document) : List ObjectId :=
  (mergeLoop fuel ⟨1, [], []⟩ docs).pageIds

/-- The per-document shifted page-id lists: for the running offset `m`,
the first document's pages shifted by `m`, then the next document's pages
shifted by the advanced offset, and so on. -/
def pagesFlat (fuel : Nat) : Nat → List Document → List (List ObjectId)
  | _, [] => []
  | m, d :: rest => (getPages d fuel).map (shiftId m) :: pagesFlat fuel (d.maxId + m + 1) rest

/-- The identifier offset applied to each input document, starting from
the given running max_id. -/
def docOffsets : Nat → List Document → List Nat
  | _, [] => []
  | m, d :: rest => m :: docOffsets (d.maxId + m + 1) rest

/-- The library error type (src/src/error.rs), restricted to the variants
the merge and overlay paths produce. -/
inductive MergeError : Type where
  | general : String → MergeError
  | fileNotFound : String → MergeError
  | emptyPdf : String → MergeError
  | pdfLoad : String → MergeError
deriving DecidableEq

/-- The input-existence loop of merge_pdfs (lines 43-48): fail on the
first path that does not exist. -/
def check_exists (fe : String → Bool) : List String → Except MergeError Unit
  | [] => .ok ()
  | p :: rest => if fe p then check_exists fe rest else .error (.fileNotFound p)

/-- The document-loading loop of merge_pdfs (lines 50-61): load each path
in order, failing on a load error or on a document with zero pages. -/
def load_documents (load : String → Option Document) (fuel : Nat) :
    List String → Except MergeError (List Document)
  | [] => .ok []
  | p :: rest =>
    match load p with
    | none => .error (.pdfLoad p)
    | some d =>
      if (getPages d fuel).isEmpty then .error (.emptyPdf p)
      else
        match load_documents load fuel rest with
        | .error e => .error e
        | .ok ds => .ok (d :: ds)

/-- merge_pdfs (src/src/pdf/merge.rs lines 38-137) with the filesystem
abstracted: `fe` is path existence, `load` is `Document::load`.  The
returned document is the one that would be saved to the output path, so
an error result means no output file is written. -/
def merge_pdfs (fe : String → Bool) (load : String → Option Document) (fuel : Nat)
    (inputPaths : List String) : Except MergeError Document :=
  if inputPaths.isEmpty then .error (.general "No input files provided")
  else
    match check_exists fe inputPaths with
    | .error e => .error e
    | .ok _ =>
      match load_documents load fuel inputPaths with
      | .error e => .error e
      | .ok docs => .ok (mergeCore fuel docs)

/-- Merge one subdictionary into another, last writer wins
(src/src/pdf/merge.rs lines 356-360). -/
def mergeSub : PdfDict → PdfDict → PdfDict
  | md, .nil => md
  | md, .cons k v rest => mergeSub (dictSet md k v) rest

/-- Merge the watermark's resource categories into the page's resource
dictionary (src/src/pdf/merge.rs lines 350-371): merge subdictionaries at
the sub-key level when both sides have dictionaries, otherwise the
watermark value overwrites. -/
def mergeResourceTypes : PdfDict → PdfDict → PdfDict
  | md, .nil => md
  | md, .cons k v rest =>
    let md1 := match dictGet md k, v with
      | some (.dict esub), .dict wsub => dictSet md k (.dict (mergeSub esub wsub))
      | some _, _ => dictSet md k v
      | none, _ => dictSet md k v
    mergeResourceTypes md1 rest

/-- merge_resources from src/src/pdf/merge.rs (lines 337-378): merge the
watermark resources into the page dictionary's Resources entry, always
setting Resources directly on the page afterwards. -/
def merge_resources (pageDict : PdfDict) (watermarkResources : PdfObj) : PdfDict :=
  let mergedResources := match dictGet pageDict "Resources" with
    | some existing => existing
    | none => PdfObj.dict .nil
  let mergedResources := match mergedResources, watermarkResources with
    | .dict md, .dict wd => PdfObj.dict (mergeResourceTypes md wd)
    | other, _ => other
  dictSet pageDict "Resources" mergedResources

/-- get_page_content_and_resources from src/src/pdf/merge.rs (lines
293-334): locate the watermark page of the given 1-based number, return
its content references and Resources rewritten through the id map. -/
def get_page_content_and_resources (doc : Document) (fuel : Nat) (pageNum : Nat)
    (f : ObjectId → ObjectId) : Except MergeError (Option (List PdfObj × PdfObj)) :=
  match (getPages doc fuel).get? (pageNum - 1) with
  | none => .ok none
  | some pageId =>
    match storeGet doc.objects pageId with
    | none => .error (.general "object not found")
    | some (.dict pd) =>
      let contentRefs : List PdfObj :=
        match dictGet pd "Contents" with
        | some content =>
          match renumberObj f content with
          | .reference id => [.reference id]
          | .array arr => objListToList arr
          | other => [other]
        | none => []
      let resources : PdfObj :=
        match dictGet pd "Resources" with
        | some res => renumberObj f res
        | none => .dict .nil
      .ok (some (contentRefs, resources))
    | some _ => .ok none

/-- The per-page loop of overlay_watermark (src/src/pdf/merge.rs lines
214-248): append the watermark page's content references to the source
page's Contents and merge its resources in. -/
def overlayLoop (fuel : Nat) (wmDoc : Document) (f : ObjectId → ObjectId) :
    List ObjectId → Nat → Store → Except MergeError Store
  | [], _, s => .ok s
  | pageId :: rest, i, s =>
    match get_page_content_and_resources wmDoc fuel (i + 1) f with
    | .error e => .error e
    | .ok none => overlayLoop fuel wmDoc f rest (i + 1) s
    | .ok (some (refs, res)) =>
      match storeGet s pageId with
      | none => .error (.general "object not found")
      | some (.dict pd) =>
        let pd1 := match dictGet pd "Contents" with
          | some (.reference cid) =>
            dictSet pd "Contents" (.array (listToObjList (PdfObj.reference cid :: refs)))
          | some (.array arr) =>
            dictSet pd "Contents" (.array (listToObjList (objListToList arr ++ refs)))
          | _ => dictSet pd "Contents" (.array (listToObjList refs))
        let pd2 := merge_resources pd1 res
        overlayLoop fuel wmDoc f rest (i + 1) (storeInsert s pageId (.dict pd2))
      | some _ => overlayLoop fuel wmDoc f rest (i + 1) s

/-- overlay_watermark (src/src/pdf/merge.rs lines 164-254) with loading
abstracted: both documents are given already loaded; the returned
document is the one that would be saved, so an error result means no
output is written.  The page counts are checked first; on mismatch the
error message reports both counts. -/
def overlay_watermark (fuel : Nat) (sourceDoc watermarkDoc : Document) :
    Except MergeError Document :=
  let sourcePages := getPages sourceDoc fuel
  let watermarkPages := getPages watermarkDoc fuel
  if sourcePages.length ≠ watermarkPages.length then
    .error (.general ("Page count mismatch: source has " ++ Nat.repr sourcePages.length
      ++ " pages, watermark has " ++ Nat.repr watermarkPages.length ++ " pages"))
  else
    let idOffset := sourceDoc.maxId + 1
    let wmKeys := storeKeys watermarkDoc.objects
    let f : ObjectId → ObjectId := fun id => if id ∈ wmKeys then shiftId idOffset id else id
    let objects := storeExtend sourceDoc.objects (mapStore f watermarkDoc.objects)
    match overlayLoop fuel watermarkDoc f sourcePages 0 objects with
    | .error e => .error e
    | .ok objects2 =>
      .ok { objects := objects2
            maxId := watermarkDoc.maxId + idOffset
            trailer := sourceDoc.trailer }

/-- add_xobject_to_page_resources (src/src/pdf/headers.rs lines
1037-1087): read the page's Resources (dereferencing a Reference, never
following Parent inheritance), copy it, add the /HeaderFooter Form
XObject entry to its XObject subdictionary, and set the result directly
on the page.  Only the page's own binding in the store changes. -/
def add_xobject_to_page_resources (objects : Store) (pageId xobjectId : ObjectId) :
    Except MergeError Store :=
  match storeGet objects pageId with
  | none => .error (.general "object not found")
  | some pageObj =>
    let resourcesDict : PdfDict :=
      match pageObj with
      | .dict pageDict =>
        match dictGet pageDict "Resources" with
        | some (.dict d) => d
        | some (.reference resId) =>
          match storeGet objects resId with
          | some (.dict d) => d
          | _ => .nil
        | some _ => .nil
        | none => .nil
      | _ => .nil
    match storeGet objects pageId with
    | none => .error (.general "object not found")
    | some (.dict pageDict) =>
      let xobjects : PdfDict :=
        match dictGet resourcesDict "XObject" with
        | some (.dict xo) => xo
        | _ => .nil
      let xobjects1 := dictSet xobjects "HeaderFooter" (.reference xobjectId)
      let newResources := dictSet resourcesDict "XObject" (.dict xobjects1)
      .ok (storeInsert objects pageId (.dict (dictSet pageDict "Resources" (.dict newResources))))
    | some _ => .ok objects

/-- line_height in generate_header_footer_content (src/src/pdf/headers.rs
line 540): 1.2 times the footer font size. -/
def line_height (footerFontSize : ℚ) : ℚ := footerFontSize * 1.2

/-- footer_top in generate_header_footer_content (lines 549, 564, 581):
the y coordinate of a footer zone's first line, high enough to fit all
the zone's lines above the 30pt bottom margin. -/
def footer_top (footerFontSize : ℚ) (numLines : Nat) : ℚ :=
  30 + ((numLines - 1 : Nat) : ℚ) * line_height footerFontSize

/-- The y coordinate of the i-th (0-based) line of a footer zone holding
`numLines` lines (lines 550-552): the first line at footer_top,
subsequent lines one line_height lower each. -/
def footer_line_y (footerFontSize : ℚ) (numLines i : Nat) : ℚ :=
  footer_top footerFontSize numLines - (i : ℚ) * line_height footerFontSize

/-- Boolean prefix test on character lists. -/
def isPrefixL : List Char → List Char → Bool
  | [], _ => true
  | _ :: _, [] => false
  | p :: ps, c :: cs => if p = c then isPrefixL ps cs else false

/-- Replace every non-overlapping occurrence of the pattern, left to
right (Rust `str::replace`); the fuel is the remaining input length. -/
def replaceGo (pat repl : List Char) : Nat → List Char → List Char
  | 0, s => s
  | _ + 1, [] => []
  | fuel + 1, c :: rest =>
    if isPrefixL pat (c :: rest) && !pat.isEmpty then
      repl ++ replaceGo pat repl fuel ((c :: rest).drop pat.length)
    else
      c :: replaceGo pat repl fuel rest

/-- String replacement wrapper (Rust `str::replace`). -/
def replaceStr (s pat repl : String) : String :=
  String.mk (replaceGo pat.data repl.data s.data.length s.data)

/-- English month name (chrono's %B), month 1-12. -/
def monthName : Nat → String
  | 1 => "January"
  | 2 => "February"
  | 3 => "March"
  | 4 => "April"
  | 5 => "May"
  | 6 => "June"
  | 7 => "July"
  | 8 => "August"
  | 9 => "September"
  | 10 => "October"
  | 11 => "November"
  | 12 => "December"
  | _ => "Unknown"

/-- format_date from src/src/date.rs (line 131): chrono format
"%B %-d, %Y", e.g. "November 20, 2024".  The date is (year, month, day). -/
def format_date (date : Nat × Nat × Nat) : String :=
  monthName date.2.1 ++ " " ++ Nat.repr date.2.2 ++ ", " ++ Nat.repr date.1

/-- expand_placeholders from src/src/pdf/headers.rs (lines 601-622):
replace the exact tokens [page]/[PAGE], [pages]/[PAGES] and [date]/[DATE]
by the page number, total page count and formatted date (empty when no
date was supplied). -/
def expand_placeholders (text : String) (pageNum totalPages : Nat)
    (date : Option (Nat × Nat × Nat)) : String :=
  let r1 := replaceStr text "[page]" (Nat.repr pageNum)
  let r2 := replaceStr r1 "[PAGE]" (Nat.repr pageNum)
  let r3 := replaceStr r2 "[pages]" (Nat.repr totalPages)
  let r4 := replaceStr r3 "[PAGES]" (Nat.repr totalPages)
  match date with
  | some d =>
    let formatted := format_date d
    replaceStr (replaceStr r4 "[date]" formatted) "[DATE]" formatted
  | none => replaceStr (replaceStr r4 "[date]" "") "[DATE]" ""

/-- Split on every non-overlapping occurrence of the separator, left to
right (Rust `str::split`); `acc` is the reversed current piece and the
fuel is the remaining input length. -/
def splitGo (sep : List Char) : Nat → List Char → List Char → List (List Char)
  | 0, acc, s => [acc.reverse ++ s]
  | _ + 1, acc, [] => [acc.reverse]
  | fuel + 1, acc, c :: rest =>
    if isPrefixL sep (c :: rest) && !sep.isEmpty then
      acc.reverse :: splitGo sep fuel [] ((c :: rest).drop sep.length)
    else
      splitGo sep fuel (c :: acc) rest

/-- String splitting wrapper (Rust `str::split` on a literal separator). -/
def splitOnStr (s sep : String) : List String :=
  (splitGo sep.data s.data.length [] s.data).map String.mk

/-- parse_multiline_text from src/src/pdf/headers.rs (lines 885-898) and
src/src/pdf/create.rs (lines 232-246): split on newline, then pipe, then
each exact-case break tag, flattening at every stage. -/
def parse_multiline_text (text : String) : List String :=
  ((((((((((splitOnStr text "\n").flatMap (fun l => splitOnStr l "|")).flatMap
    (fun l => splitOnStr l "[br]")).flatMap (fun l => splitOnStr l "[BR]")).flatMap
    (fun l => splitOnStr l "<br>")).flatMap (fun l => splitOnStr l "<BR>")).flatMap
    (fun l => splitOnStr l "<br/>")).flatMap (fun l => splitOnStr l "<BR/>")).flatMap
    (fun l => splitOnStr l "<br />")).flatMap (fun l => splitOnStr l "<BR />"))

/-- Whitespace tokenizer over a content stream's characters; `acc` is the
reversed current token. -/
def tokenizeGo : List Char → List Char → List String
  | [], acc => if acc.isEmpty then [] else [String.mk acc.reverse]
  | c :: rest, acc =>
    if c = ' ' ∨ c = '\n' ∨ c = '\t' ∨ c = '\r' then
      if acc.isEmpty then tokenizeGo rest [] else String.mk acc.reverse :: tokenizeGo rest []
    else tokenizeGo rest (c :: acc)

/-- Split a content stream into whitespace-separated tokens. -/
def tokenize (s : String) : List String := tokenizeGo s.data []

/-- Decimal digit-string value; fails on a non-digit or an empty string. -/
def digitsValGo : List Char → Nat → Option Nat
  | [], acc => some acc
  | c :: rest, acc =>
    if c.isDigit then digitsValGo rest (acc * 10 + (c.toNat - 48)) else none

/-- Value of a nonempty digit string. -/
def digitsVal : List Char → Option Nat
  | [] => none
  | cs => digitsValGo cs 0

/-- Parse a numeric operand token: optional leading minus, digits, and an
optional fractional part. -/
def parseNumTok (t : String) : Option ℚ :=
  let cs := t.data
  let stripped := match cs with
    | '-' :: rest => (true, rest)
    | _ => (false, cs)
  let neg := stripped.1
  match splitGo ['.'] stripped.2.length [] stripped.2 with
  | [ip] => (digitsVal ip).map (fun n => if neg then -(n : ℚ) else (n : ℚ))
  | [ip, fp] =>
    match digitsVal ip, digitsVal fp with
    | some a, some b =>
      let v : ℚ := (a : ℚ) + (b : ℚ) / ((10 : ℚ) ^ fp.length)
      some (if neg then -v else v)
    | _, _ => none
  | _ => none

/-- Parse a list of operand tokens; fails if any token is non-numeric. -/
def parseAll : List String → Option (List ℚ)
  | [] => some []
  | t :: rest =>
    match parseNumTok t, parseAll rest with
    | some q, some qs => some (q :: qs)
    | _, _ => none

/-- The tokens before the first concat-matrix mnemonic, if any. -/
def splitAtCm : List String → Option (List String)
  | [] => none
  | t :: rest => if t = "cm" then some [] else (splitAtCm rest).map (t :: ·)

/-- The identity transform matrix. -/
def identityMatrix : List ℚ := [1, 0, 0, 1, 0, 0]

/-- Modelled from the spec: the Transformation Detector (§4.3) is not
implemented under src/ — only the debug driver
src/examples/debug_transform_detection.rs scans for the first cm operator
and its 6 preceding operands.  Per §4.3: find the first concat-matrix
mnemonic; take the 6 operand tokens before it; if a graphics-state-save
operator occurs anywhere earlier (or as the very first token) the
transform is bracketed and identity is reported; otherwise the literal
matrix; identity when no transform operator is present. -/
def detectTokens (tokens : List String) : List ℚ :=
  match splitAtCm tokens with
  | none => identityMatrix
  | some pre =>
    if pre.length < 6 then identityMatrix
    else
      let before := pre.take (pre.length - 6)
      let operands := pre.drop (pre.length - 6)
      if "q" ∈ before then identityMatrix
      else
        match parseAll operands with
        | some qs => qs
        | none => identityMatrix

/-- Modelled from the spec: `detect(page_content_bytes) -> TransformMatrix`
(§4.3), as a scan over the whitespace tokens of the content stream. -/
def detect (content : String) : List ℚ := detectTokens (tokenize content)

/-- A minimal one-page example document: Catalog (1,0) → Pages (2,0) →
Page (3,0); used as concrete input for witnesses and counterexamples. -/
def exDoc1 : Document :=
  { objects :=
      [ ((1, 0), .dict (.cons "Type" (.name "Catalog")
          (.cons "Pages" (.reference (2, 0)) .nil)))
      , ((2, 0), .dict (.cons "Type" (.name "Pages")
          (.cons "Kids" (.array (.cons (.reference (3, 0)) .nil))
          (.cons "Count" (.integer 1) .nil))))
      , ((3, 0), .dict (.cons "Type" (.name "Page") .nil)) ]
    maxId := 3
    trailer := .cons "Root" (.reference (1, 0)) .nil }

/-- A six-page example document: Catalog (1,0) → Pages (2,0) → Page
(3,0) … (8,0); matches the spec's example of a 6-page input. -/
def exDoc6 : Document :=
  { objects :=
      [ ((1, 0), .dict (.cons "Type" (.name "Catalog")
          (.cons "Pages" (.reference (2, 0)) .nil)))
      , ((2, 0), .dict (.cons "Type" (.name "Pages")
          (.cons "Kids" (.array (.cons (.reference (3, 0)) (.cons (.reference (4, 0))
            (.cons (.reference (5, 0)) (.cons (.reference (6, 0))
            (.cons (.reference (7, 0)) (.cons (.reference (8, 0)) .nil)))))))
          (.cons "Count" (.integer 6) .nil))))
      , ((3, 0), .dict (.cons "Type" (.name "Page") .nil))
      , ((4, 0), .dict (.cons "Type" (.name "Page") .nil))
      , ((5, 0), .dict (.cons "Type" (.name "Page") .nil))
      , ((6, 0), .dict (.cons "Type" (.name "Page") .nil))
      , ((7, 0), .dict (.cons "Type" (.name "Page") .nil))
      , ((8, 0), .dict (.cons "Type" (.name "Page") .nil)) ]
    maxId := 8
    trailer := .cons "Root" (.reference (1, 0)) .nil }

/-- A two-page example document: Catalog (1,0) → Pages (2,0) → Pages
(3,0), (4,0); the shared ancestor (2,0) holds a Resources dictionary by
reference to (5,0) which the leaf pages inherit (no direct Resources). -/
def exDoc2 : Document :=
  { objects :=
      [ ((1, 0), .dict (.cons "Type" (.name "Catalog")
          (.cons "Pages" (.reference (2, 0)) .nil)))
      , ((2, 0), .dict (.cons "Type" (.name "Pages")
          (.cons "Kids" (.array (.cons (.reference (3, 0)) (.cons (.reference (4, 0)) .nil)))
          (.cons "Count" (.integer 2)
          (.cons "Resources" (.reference (5, 0)) .nil)))))
      , ((3, 0), .dict (.cons "Type" (.name "Page") .nil))
      , ((4, 0), .dict (.cons "Type" (.name "Page") .nil))
      , ((5, 0), .dict (.cons "Font" (.dict (.cons "F9" (.reference (6, 0)) .nil)) .nil))
      , ((6, 0), .dict (.cons "Type" (.name "Font") .nil)) ]
    maxId := 6
    trailer := .cons "Root" (.reference (1, 0)) .nil }

/-- A document whose page tree is empty: Catalog (1,0) → Pages (2,0) with
no Kids entries (an "empty PDF"). -/
def exDocEmpty : Document :=
  { objects :=
      [ ((1, 0), .dict (.cons "Type" (.name "Catalog")
          (.cons "Pages" (.reference (2, 0)) .nil)))
      , ((2, 0), .dict (.cons "Type" (.name "Pages")
          (.cons "Kids" (.array .nil)
          (.cons "Count" (.integer 0) .nil)))) ]
    maxId := 2
    trailer := .cons "Root" (.reference (1, 0)) .nil }

/-! Basic dictionary and store lemmas. -/

theorem dictGet_dictSet_self (d : PdfDict) (k : String) (v : PdfObj) :
    dictGet (dictSet d k v) k = some v := by
  match d with
  | .nil => simp [dictSet, dictGet]
  | .cons k0 v0 rest =>
    by_cases h : k0 = k
    · subst h; simp [dictSet, dictGet]
    · simp [dictSet, dictGet, h, dictGet_dictSet_self rest k v]

theorem dictGet_dictSet_ne (d : PdfDict) (k : String) (v : PdfObj) (k' : String)
    (h : k' ≠ k) : dictGet (dictSet d k v) k' = dictGet d k' := by
  match d with
  | .nil => simp [dictSet, dictGet, Ne.symm h]
  | .cons k0 v0 rest =>
    by_cases h0 : k0 = k
    · subst h0; simp [dictSet, dictGet, Ne.symm h]
    · by_cases h1 : k0 = k'
      · subst h1; simp [dictSet, dictGet, h0]
      · simp [dictSet, dictGet, h0, h1, dictGet_dictSet_ne rest k v k' h]

theorem storeKeys_nil : storeKeys ([] : Store) = [] := rfl

theorem storeKeys_cons (i : ObjectId) (o : PdfObj) (s : Store) :
    storeKeys ((i, o) :: s) = i :: storeKeys s := rfl

theorem storeGet_insert_self (s : Store) (id : ObjectId) (o : PdfObj) :
    storeGet (storeInsert s id o) id = some o := by
  induction s with
  | nil => simp [storeInsert, storeGet]
  | cons p rest ih =>
    obtain ⟨i, o0⟩ := p
    by_cases h : i = id
    · subst h; simp [storeInsert, storeGet]
    · simp [storeInsert, storeGet, h, ih]

theorem storeGet_insert_ne (s : Store) (id id' : ObjectId) (o : PdfObj)
    (h : id' ≠ id) : storeGet (storeInsert s id o) id' = storeGet s id' := by
  induction s with
  | nil => simp [storeInsert, storeGet, Ne.symm h]
  | cons p rest ih =>
    obtain ⟨i, o0⟩ := p
    by_cases hi : i = id
    · subst hi; simp [storeInsert, storeGet, Ne.symm h]
    · by_cases hii : i = id'
      · subst hii; simp [storeInsert, storeGet, hi]
      · simp [storeInsert, storeGet, hi, hii, ih]

theorem mem_storeKeys_insert (s : Store) (id id' : ObjectId) (o : PdfObj) :
    id' ∈ storeKeys (storeInsert s id o) ↔ id' = id ∨ id' ∈ storeKeys s := by
  induction s with
  | nil => simp [storeInsert, storeKeys]
  | cons p rest ih =>
    obtain ⟨i, o0⟩ := p
    by_cases hi : i = id
    · subst hi
      simp [storeInsert, storeKeys_cons]
    · simp [storeInsert, hi, storeKeys_cons, ih]
      tauto

theorem nodup_storeKeys_insert (s : Store) (id : ObjectId) (o : PdfObj)
    (h : (storeKeys s).Nodup) : (storeKeys (storeInsert s id o)).Nodup := by
  induction s with
  | nil => simp [storeInsert, storeKeys]
  | cons p rest ih =>
    obtain ⟨i, o0⟩ := p
    rw [storeKeys_cons, List.nodup_cons] at h
    by_cases hi : i = id
    · subst hi
      have he : storeInsert ((i, o0) :: rest) i o = (i, o) :: rest := by
        simp [storeInsert]
      rw [he, storeKeys_cons, List.nodup_cons]
      exact h
    · have he : storeInsert ((i, o0) :: rest) id o = (i, o0) :: storeInsert rest id o := by
        simp [storeInsert, hi]
      rw [he, storeKeys_cons, List.nodup_cons]
      refine ⟨fun hmem => ?_, ih h.2⟩
      rcases (mem_storeKeys_insert rest id i o).1 hmem with h1 | h1
      · exact hi h1
      · exact h.1 h1

theorem length_insert_mem (s : Store) (id : ObjectId) (o : PdfObj)
    (h : id ∈ storeKeys s) : (storeInsert s id o).length = s.length := by
  induction s with
  | nil => simp [storeKeys] at h
  | cons p rest ih =>
    obtain ⟨i, o0⟩ := p
    by_cases hi : i = id
    · subst hi; simp [storeInsert]
    · rw [storeKeys_cons, List.mem_cons] at h
      rcases h with h | h
      · exact absurd h.symm hi
      · simp [storeInsert, hi, ih h]

theorem length_insert_not_mem (s : Store) (id : ObjectId) (o : PdfObj)
    (h : id ∉ storeKeys s) : (storeInsert s id o).length = s.length + 1 := by
  induction s with
  | nil => simp [storeInsert]
  | cons p rest ih =>
    obtain ⟨i, o0⟩ := p
    rw [storeKeys_cons, List.mem_cons] at h
    push_neg at h
    have hi : i ≠ id := fun hh => h.1 hh.symm
    simp [storeInsert, hi, ih h.2]

theorem storeGet_some_mem_pair (s : Store) (id : ObjectId) (v : PdfObj)
    (h : storeGet s id = some v) : (id, v) ∈ s := by
  induction s with
  | nil => simp [storeGet] at h
  | cons p rest ih =>
    obtain ⟨i, o0⟩ := p
    by_cases hi : i = id
    · subst hi
      simp [storeGet] at h
      subst h
      exact List.mem_cons_self _ _
    · simp [storeGet, hi] at h
      exact List.mem_cons_of_mem _ (ih h)

theorem storeGet_some_mem_keys (s : Store) (id : ObjectId) (v : PdfObj)
    (h : storeGet s id = some v) : id ∈ storeKeys s := by
  have := storeGet_some_mem_pair s id v h
  exact List.mem_map_of_mem Prod.fst this

theorem storeGet_none_of_not_mem (s : Store) (id : ObjectId)
    (h : id ∉ storeKeys s) : storeGet s id = none := by
  induction s with
  | nil => simp [storeGet]
  | cons p rest ih =>
    obtain ⟨i, o0⟩ := p
    rw [storeKeys_cons, List.mem_cons] at h
    push_neg at h
    have hi : i ≠ id := fun hh => h.1 hh.symm
    simp [storeGet, hi, ih h.2]

theorem exists_storeGet_of_mem (s : Store) (id : ObjectId)
    (h : id ∈ storeKeys s) : ∃ v, storeGet s id = some v := by
  induction s with
  | nil => simp [storeKeys] at h
  | cons p rest ih =>
    obtain ⟨i, o0⟩ := p
    by_cases hi : i = id
    · subst hi; exact ⟨o0, by simp [storeGet]⟩
    · rw [storeKeys_cons, List.mem_cons] at h
      rcases h with h | h
      · exact absurd h.symm hi
      · obtain ⟨v, hv⟩ := ih h
        exact ⟨v, by simp [storeGet, hi, hv]⟩

theorem storeGet_extend_not_mem (t : Store) (s : Store) (id : ObjectId)
    (h : id ∉ storeKeys t) : storeGet (storeExtend s t) id = storeGet s id := by
  induction t generalizing s with
  | nil => simp [storeExtend]
  | cons p rest ih =>
    obtain ⟨i, o0⟩ := p
    rw [storeKeys_cons, List.mem_cons] at h
    push_neg at h
    simp only [storeExtend]
    rw [ih _ h.2, storeGet_insert_ne _ _ _ _ h.1]

theorem storeGet_extend_mem (t : Store) (s : Store) (id : ObjectId) (v : PdfObj)
    (hnd : (storeKeys t).Nodup) (h : storeGet t id = some v) :
    storeGet (storeExtend s t) id = some v := by
  induction t generalizing s with
  | nil => simp [storeGet] at h
  | cons p rest ih =>
    obtain ⟨i, o0⟩ := p
    rw [storeKeys_cons, List.nodup_cons] at hnd
    by_cases hi : i = id
    · subst hi
      simp [storeGet] at h
      subst h
      simp only [storeExtend]
      rw [storeGet_extend_not_mem _ _ _ hnd.1, storeGet_insert_self]
    · simp [storeGet, hi] at h
      simp only [storeExtend]
      exact ih _ hnd.2 h

theorem mem_storeKeys_extend (t : Store) (s : Store) (id : ObjectId) :
    id ∈ storeKeys (storeExtend s t) ↔ id ∈ storeKeys s ∨ id ∈ storeKeys t := by
  induction t generalizing s with
  | nil => simp [storeExtend, storeKeys]
  | cons p rest ih =>
    obtain ⟨i, o0⟩ := p
    simp only [storeExtend]
    rw [ih, mem_storeKeys_insert, storeKeys_cons]
    simp
    tauto

theorem nodup_storeKeys_extend (t : Store) (s : Store)
    (h : (storeKeys s).Nodup) : (storeKeys (storeExtend s t)).Nodup := by
  induction t generalizing s with
  | nil => exact h
  | cons p rest ih =>
    obtain ⟨i, o0⟩ := p
    simp only [storeExtend]
    exact ih _ (nodup_storeKeys_insert _ _ _ h)

theorem length_extend_disjoint (t : Store) (s : Store)
    (hnd : (storeKeys t).Nodup) (hdisj : ∀ id ∈ storeKeys t, id ∉ storeKeys s) :
    (storeExtend s t).length = s.length + t.length := by
  induction t generalizing s with
  | nil => simp [storeExtend]
  | cons p rest ih =>
    obtain ⟨i, o0⟩ := p
    rw [storeKeys_cons, List.nodup_cons] at hnd
    simp only [storeExtend]
    have hi : i ∉ storeKeys s := hdisj i (by simp [storeKeys_cons])
    have hlen := length_insert_not_mem s i o0 hi
    have hdisj2 : ∀ id ∈ storeKeys rest, id ∉ storeKeys (storeInsert s i o0) := by
      intro id hid
      rw [mem_storeKeys_insert]
      push_neg
      refine ⟨fun hh => hnd.1 (hh ▸ hid), hdisj id ?_⟩
      rw [storeKeys_cons]
      exact List.mem_cons_of_mem _ hid
    rw [ih _ hnd.2 hdisj2, hlen]
    simp [List.length_cons]
    omega

/-! Renumbering commutes with lookup and page-tree traversal. -/

theorem shiftId_injective (off : Nat) : Function.Injective (shiftId off) := by
  intro a b h
  obtain ⟨a1, a2⟩ := a
  obtain ⟨b1, b2⟩ := b
  simp [shiftId] at h
  simp [h.2]
  omega

theorem dictGet_renumberDict (f : ObjectId → ObjectId) (d : PdfDict) (k : String) :
    dictGet (renumberDict f d) k = (dictGet d k).map (renumberObj f) := by
  match d with
  | .nil => simp [renumberDict, dictGet]
  | .cons k0 v0 rest =>
    by_cases h : k0 = k
    · subst h; simp [renumberDict, dictGet]
    · simp [renumberDict, dictGet, h, dictGet_renumberDict f rest k]

theorem refIds_renumberList (f : ObjectId → ObjectId) (xs : PdfObjList) :
    refIds (renumberList f xs) = (refIds xs).map f := by
  match xs with
  | .nil => simp [renumberList, refIds]
  | .cons x rest =>
    match x with
    | .reference id => simp [renumberList, renumberObj, refIds, refIds_renumberList f rest]
    | .null => simp [renumberList, renumberObj, refIds, refIds_renumberList f rest]
    | .boolean b => simp [renumberList, renumberObj, refIds, refIds_renumberList f rest]
    | .integer i => simp [renumberList, renumberObj, refIds, refIds_renumberList f rest]
    | .real q => simp [renumberList, renumberObj, refIds, refIds_renumberList f rest]
    | .strLit s => simp [renumberList, renumberObj, refIds, refIds_renumberList f rest]
    | .name n => simp [renumberList, renumberObj, refIds, refIds_renumberList f rest]
    | .array ys => simp [renumberList, renumberObj, refIds, refIds_renumberList f rest]
    | .dict dd => simp [renumberList, renumberObj, refIds, refIds_renumberList f rest]
    | .stream dd c => simp [renumberList, renumberObj, refIds, refIds_renumberList f rest]

theorem storeKeys_mapStore (f : ObjectId → ObjectId) (s : Store) :
    storeKeys (mapStore f s) = (storeKeys s).map f := by
  induction s with
  | nil => rfl
  | cons p rest ih =>
    obtain ⟨i, o⟩ := p
    simp only [mapStore, storeKeys, List.map_cons] at ih ⊢
    exact congrArg _ ih

theorem storeGet_mapStore (f : ObjectId → ObjectId) (hf : Function.Injective f)
    (s : Store) (id : ObjectId) :
    storeGet (mapStore f s) (f id) = (storeGet s id).map (renumberObj f) := by
  induction s with
  | nil => simp [mapStore, storeGet]
  | cons p rest ih =>
    obtain ⟨i, o⟩ := p
    by_cases h : i = id
    · subst h; simp [mapStore, storeGet]
    · have hfne : f i ≠ f id := fun hh => h (hf hh)
      simp [mapStore, storeGet, h, hfne] at ih ⊢
      exact ih

theorem collectPagesGo_mapStore (f : ObjectId → ObjectId) (hf : Function.Injective f)
    (s : Store) :
    ∀ fuel wl, collectPagesGo (mapStore f s) fuel (wl.map f)
      = (collectPagesGo s fuel wl).map f := by
  intro fuel
  induction fuel with
  | zero => intro wl; simp [collectPagesGo]
  | succ fuel ih =>
    intro wl
    cases wl with
    | nil => simp [collectPagesGo]
    | cons id rest =>
      cases hso : storeGet s id with
      | none =>
        have hms : storeGet (mapStore f s) (f id) = none := by
          rw [storeGet_mapStore f hf, hso]; rfl
        simp [collectPagesGo, hso, hms, ih]
      | some o =>
        have hms : storeGet (mapStore f s) (f id) = some (renumberObj f o) := by
          rw [storeGet_mapStore f hf, hso]; rfl
        cases o
        case dict d =>
          cases hty : dictGet d "Type" with
          | none =>
            have hty2 : dictGet (renumberDict f d) "Type" = none := by
              rw [dictGet_renumberDict, hty]; rfl
            simp [collectPagesGo, hso, hms, renumberObj, hty, hty2, ih]
          | some tobj =>
            have hty2 : dictGet (renumberDict f d) "Type" = some (renumberObj f tobj) := by
              rw [dictGet_renumberDict, hty]; rfl
            cases tobj
            case name ty =>
              by_cases hpage : ty = "Page"
              · subst hpage
                simp [collectPagesGo, hso, hms, renumberObj, hty, hty2, ih]
              · by_cases hpages : ty = "Pages"
                · subst hpages
                  cases hk : dictGet d "Kids" with
                  | none =>
                    have hk2 : dictGet (renumberDict f d) "Kids" = none := by
                      rw [dictGet_renumberDict, hk]; rfl
                    simp [collectPagesGo, hso, hms, renumberObj, hty, hty2, hk, hk2, ih]
                  | some kobj =>
                    have hk2 : dictGet (renumberDict f d) "Kids"
                        = some (renumberObj f kobj) := by
                      rw [dictGet_renumberDict, hk]; rfl
                    cases kobj with
                    | array kids =>
                      have hwl : refIds (renumberList f kids) ++ rest.map f
                          = (refIds kids ++ rest).map f := by
                        rw [refIds_renumberList, List.map_append]
                      simp only [collectPagesGo, hso, hms, renumberObj, hty, hty2, hk, hk2]
                      simp only [refIds_renumberList]
                      have hgoal := ih (refIds kids ++ rest)
                      simp only [List.map_append] at hgoal
                      exact hgoal
                    | null => simp [collectPagesGo, hso, hms, renumberObj, hty, hty2, hk, hk2, ih]
                    | boolean b => simp [collectPagesGo, hso, hms, renumberObj, hty, hty2, hk, hk2, ih]
                    | integer i2 => simp [collectPagesGo, hso, hms, renumberObj, hty, hty2, hk, hk2, ih]
                    | real q => simp [collectPagesGo, hso, hms, renumberObj, hty, hty2, hk, hk2, ih]
                    | strLit s2 => simp [collectPagesGo, hso, hms, renumberObj, hty, hty2, hk, hk2, ih]
                    | name n => simp [collectPagesGo, hso, hms, renumberObj, hty, hty2, hk, hk2, ih]
                    | dict dd => simp [collectPagesGo, hso, hms, renumberObj, hty, hty2, hk, hk2, ih]
                    | reference r => simp [collectPagesGo, hso, hms, renumberObj, hty, hty2, hk, hk2, ih]
                    | stream dd c => simp [collectPagesGo, hso, hms, renumberObj, hty, hty2, hk, hk2, ih]
                · simp [collectPagesGo, hso, hms, renumberObj, hty, hty2, hpage, hpages, ih]
            all_goals
              simp [collectPagesGo, hso, hms, renumberObj, hty, hty2, ih]
        all_goals
          simp [collectPagesGo, hso, hms, renumberObj, ih]

theorem getPages_renumber (off : Nat) (d : Document) (fuel : Nat) :
    getPages (renumber_objects_with off d) fuel = (getPages d fuel).map (shiftId off) := by
  have hf := shiftId_injective off
  unfold getPages renumber_objects_with
  cases hroot : dictGet d.trailer "Root" with
  | none =>
    have h2 : dictGet (renumberDict (shiftId off) d.trailer) "Root" = none := by
      rw [dictGet_renumberDict, hroot]; rfl
    simp [h2]
  | some robj =>
    have h2 : dictGet (renumberDict (shiftId off) d.trailer) "Root"
        = some (renumberObj (shiftId off) robj) := by
      rw [dictGet_renumberDict, hroot]; rfl
    cases robj
    case reference rootId =>
      cases hso : storeGet d.objects rootId with
      | none =>
        have h3 : storeGet (mapStore (shiftId off) d.objects) (shiftId off rootId) = none := by
          rw [storeGet_mapStore _ hf, hso]; rfl
        simp [h2, renumberObj, hso, h3]
      | some cobj =>
        have h3 : storeGet (mapStore (shiftId off) d.objects) (shiftId off rootId)
            = some (renumberObj (shiftId off) cobj) := by
          rw [storeGet_mapStore _ hf, hso]; rfl
        cases cobj
        case dict cat =>
          cases hp : dictGet cat "Pages" with
          | none =>
            have h4 : dictGet (renumberDict (shiftId off) cat) "Pages" = none := by
              rw [dictGet_renumberDict, hp]; rfl
            simp [h2, renumberObj, hso, h3, hp, h4]
          | some pobj =>
            have h4 : dictGet (renumberDict (shiftId off) cat) "Pages"
                = some (renumberObj (shiftId off) pobj) := by
              rw [dictGet_renumberDict, hp]; rfl
            cases pobj
            case reference pid =>
              simp only [h2, renumberObj, hso, h3, hp, h4]
              have := collectPagesGo_mapStore (shiftId off) hf d.objects fuel [pid]
              simpa using this
            all_goals simp [h2, renumberObj, hso, h3, hp, h4]
        all_goals simp [h2, renumberObj, hso, h3]
    all_goals simp [h2, renumberObj]

/-! Traversal yields only Page-typed dictionary objects, and a worklist of
such leaves is returned as-is given enough fuel. -/

theorem collectPagesGo_mem (objects : Store) :
    ∀ fuel wl id, id ∈ collectPagesGo objects fuel wl →
      ∃ pd, storeGet objects id = some (.dict pd)
        ∧ dictGet pd "Type" = some (.name "Page") := by
  intro fuel
  induction fuel with
  | zero => intro wl id h; simp [collectPagesGo] at h
  | succ fuel ih =>
    intro wl id h
    cases wl with
    | nil => simp [collectPagesGo] at h
    | cons i rest =>
      cases hso : storeGet objects i with
      | none =>
        simp only [collectPagesGo, hso] at h
        exact ih rest id h
      | some o =>
        cases o with
        | dict d =>
          cases hty : dictGet d "Type" with
          | none =>
            simp only [collectPagesGo, hso, hty] at h
            exact ih rest id h
          | some tobj =>
            cases tobj with
            | name ty =>
              by_cases hpage : ty = "Page"
              · subst hpage
                simp only [collectPagesGo, hso, hty, if_pos rfl] at h
                rcases List.mem_cons.1 h with h1 | h1
                · subst h1; exact ⟨d, hso, hty⟩
                · exact ih rest id h1
              · by_cases hpages : ty = "Pages"
                · subst hpages
                  cases hk : dictGet d "Kids" with
                  | none =>
                    simp only [collectPagesGo, hso, hty, hk,
                      if_neg (by decide : ¬ ("Pages" : String) = "Page"), if_pos rfl] at h
                    exact ih rest id h
                  | some kobj =>
                    cases kobj with
                    | array kids =>
                      simp only [collectPagesGo, hso, hty, hk,
                        if_neg (by decide : ¬ ("Pages" : String) = "Page"), if_pos rfl] at h
                      exact ih _ id h
                    | null =>
                      simp only [collectPagesGo, hso, hty, hk,
                        if_neg (by decide : ¬ ("Pages" : String) = "Page"), if_pos rfl] at h
                      exact ih rest id h
                    | boolean b2 =>
                      simp only [collectPagesGo, hso, hty, hk,
                        if_neg (by decide : ¬ ("Pages" : String) = "Page"), if_pos rfl] at h
                      exact ih rest id h
                    | integer i2 =>
                      simp only [collectPagesGo, hso, hty, hk,
                        if_neg (by decide : ¬ ("Pages" : String) = "Page"), if_pos rfl] at h
                      exact ih rest id h
                    | real q2 =>
                      simp only [collectPagesGo, hso, hty, hk,
                        if_neg (by decide : ¬ ("Pages" : String) = "Page"), if_pos rfl] at h
                      exact ih rest id h
                    | strLit s2 =>
                      simp only [collectPagesGo, hso, hty, hk,
                        if_neg (by decide : ¬ ("Pages" : String) = "Page"), if_pos rfl] at h
                      exact ih rest id h
                    | name n2 =>
                      simp only [collectPagesGo, hso, hty, hk,
                        if_neg (by decide : ¬ ("Pages" : String) = "Page"), if_pos rfl] at h
                      exact ih rest id h
                    | dict dd2 =>
                      simp only [collectPagesGo, hso, hty, hk,
                        if_neg (by decide : ¬ ("Pages" : String) = "Page"), if_pos rfl] at h
                      exact ih rest id h
                    | reference r2 =>
                      simp only [collectPagesGo, hso, hty, hk,
                        if_neg (by decide : ¬ ("Pages" : String) = "Page"), if_pos rfl] at h
                      exact ih rest id h
                    | stream dd2 c2 =>
                      simp only [collectPagesGo, hso, hty, hk,
                        if_neg (by decide : ¬ ("Pages" : String) = "Page"), if_pos rfl] at h
                      exact ih rest id h
                · simp only [collectPagesGo, hso, hty, if_neg hpage, if_neg hpages] at h
                  exact ih rest id h
            | null =>
              simp only [collectPagesGo, hso, hty] at h
              exact ih rest id h
            | boolean b2 =>
              simp only [collectPagesGo, hso, hty] at h
              exact ih rest id h
            | integer i2 =>
              simp only [collectPagesGo, hso, hty] at h
              exact ih rest id h
            | real q2 =>
              simp only [collectPagesGo, hso, hty] at h
              exact ih rest id h
            | strLit s2 =>
              simp only [collectPagesGo, hso, hty] at h
              exact ih rest id h
            | array ys2 =>
              simp only [collectPagesGo, hso, hty] at h
              exact ih rest id h
            | dict dd2 =>
              simp only [collectPagesGo, hso, hty] at h
              exact ih rest id h
            | reference r2 =>
              simp only [collectPagesGo, hso, hty] at h
              exact ih rest id h
            | stream dd2 c2 =>
              simp only [collectPagesGo, hso, hty] at h
              exact ih rest id h
        | null =>
          simp only [collectPagesGo, hso] at h
          exact ih rest id h
        | boolean b2 =>
          simp only [collectPagesGo, hso] at h
          exact ih rest id h
        | integer i2 =>
          simp only [collectPagesGo, hso] at h
          exact ih rest id h
        | real q2 =>
          simp only [collectPagesGo, hso] at h
          exact ih rest id h
        | strLit s2 =>
          simp only [collectPagesGo, hso] at h
          exact ih rest id h
        | name n2 =>
          simp only [collectPagesGo, hso] at h
          exact ih rest id h
        | array ys2 =>
          simp only [collectPagesGo, hso] at h
          exact ih rest id h
        | reference r2 =>
          simp only [collectPagesGo, hso] at h
          exact ih rest id h
        | stream dd2 c2 =>
          simp only [collectPagesGo, hso] at h
          exact ih rest id h

theorem collectPagesGo_leaves (objects : Store) :
    ∀ fuel wl,
      (∀ id ∈ wl, ∃ pd, storeGet objects id = some (.dict pd)
        ∧ dictGet pd "Type" = some (.name "Page")) →
      wl.length ≤ fuel → collectPagesGo objects fuel wl = wl := by
  intro fuel
  induction fuel with
  | zero =>
    intro wl h hlen
    rw [List.length_eq_zero.1 (Nat.le_zero.1 hlen)]
    simp [collectPagesGo]
  | succ fuel ih =>
    intro wl h hlen
    cases wl with
    | nil => simp [collectPagesGo]
    | cons i rest =>
      obtain ⟨pd, hso, hty⟩ := h i (List.mem_cons_self _ _)
      simp only [collectPagesGo, hso, hty]
      simp only [List.length_cons, Nat.add_le_add_iff_right] at hlen
      simp [ih rest (fun id hid => h id (List.mem_cons_of_mem _ hid)) hlen]

theorem getPages_mem (d : Document) (fuel : Nat) (pid : ObjectId)
    (h : pid ∈ getPages d fuel) :
    ∃ pd, storeGet d.objects pid = some (.dict pd)
      ∧ dictGet pd "Type" = some (.name "Page") := by
  unfold getPages at h
  split at h
  · split at h
    · split at h
      · exact collectPagesGo_mem _ _ _ _ h
      · simp at h
    · simp at h
  · simp at h

/-! setParents only rewrites the Parent entry of page dictionaries. -/

theorem setParentStep_get_ne (p : ObjectId) (s : Store) (pid id : ObjectId)
    (h : id ≠ pid) : storeGet (setParentStep p s pid) id = storeGet s id := by
  unfold setParentStep
  split
  · exact storeGet_insert_ne _ _ _ _ h
  · rfl

theorem setParentStep_dict (p : ObjectId) (s : Store) (pid : ObjectId) (d : PdfDict)
    (h : storeGet s pid = some (.dict d)) :
    setParentStep p s pid = storeInsert s pid (.dict (dictSet d "Parent" (.reference p))) := by
  unfold setParentStep
  rw [h]

theorem mem_storeKeys_setParentStep (p : ObjectId) (s : Store) (pid id : ObjectId) :
    id ∈ storeKeys (setParentStep p s pid) ↔ id ∈ storeKeys s := by
  unfold setParentStep
  split
  case _ d h =>
    rw [mem_storeKeys_insert]
    have hmem := storeGet_some_mem_keys _ _ _ h
    constructor
    · rintro (rfl | hh)
      · exact hmem
      · exact hh
    · exact Or.inr
  · exact Iff.rfl

theorem nodup_storeKeys_setParentStep (p : ObjectId) (s : Store) (pid : ObjectId)
    (h : (storeKeys s).Nodup) : (storeKeys (setParentStep p s pid)).Nodup := by
  unfold setParentStep
  split
  · exact nodup_storeKeys_insert _ _ _ h
  · exact h

theorem length_setParentStep (p : ObjectId) (s : Store) (pid : ObjectId) :
    (setParentStep p s pid).length = s.length := by
  unfold setParentStep
  split
  case _ d h => exact length_insert_mem _ _ _ (storeGet_some_mem_keys _ _ _ h)
  · rfl

theorem setParents_get_not_mem (p : ObjectId) :
    ∀ (ps : List ObjectId) (s : Store) (id : ObjectId), id ∉ ps →
      storeGet (setParents p s ps) id = storeGet s id := by
  intro ps
  induction ps with
  | nil => intro s id _; rfl
  | cons q rest ih =>
    intro s id h
    rw [List.mem_cons] at h
    push_neg at h
    simp only [setParents]
    rw [ih _ _ h.2, setParentStep_get_ne _ _ _ _ h.1]

theorem mem_storeKeys_setParents (p : ObjectId) :
    ∀ (ps : List ObjectId) (s : Store) (id : ObjectId),
      id ∈ storeKeys (setParents p s ps) ↔ id ∈ storeKeys s := by
  intro ps
  induction ps with
  | nil => intro s id; exact Iff.rfl
  | cons q rest ih =>
    intro s id
    simp only [setParents]
    rw [ih, mem_storeKeys_setParentStep]

theorem nodup_storeKeys_setParents (p : ObjectId) :
    ∀ (ps : List ObjectId) (s : Store), (storeKeys s).Nodup →
      (storeKeys (setParents p s ps)).Nodup := by
  intro ps
  induction ps with
  | nil => intro s h; exact h
  | cons q rest ih =>
    intro s h
    simp only [setParents]
    exact ih _ (nodup_storeKeys_setParentStep _ _ _ h)

theorem length_setParents (p : ObjectId) :
    ∀ (ps : List ObjectId) (s : Store), (setParents p s ps).length = s.length := by
  intro ps
  induction ps with
  | nil => intro s; rfl
  | cons q rest ih =>
    intro s
    simp only [setParents]
    rw [ih, length_setParentStep]

theorem setParents_get_dict (p : ObjectId) :
    ∀ (ps : List ObjectId) (s : Store) (id : ObjectId) (d : PdfDict),
      storeGet s id = some (.dict d) →
      ∃ d2, storeGet (setParents p s ps) id = some (.dict d2)
        ∧ (∀ k, k ≠ "Parent" → dictGet d2 k = dictGet d k)
        ∧ (id ∈ ps → dictGet d2 "Parent" = some (.reference p)) := by
  intro ps
  induction ps with
  | nil =>
    intro s id d h
    exact ⟨d, h, fun _ _ => rfl, by simp⟩
  | cons q rest ih =>
    intro s id d h
    by_cases hq : q = id
    · subst hq
      have hstep := setParentStep_dict p s q d h
      have h1 : storeGet (setParentStep p s q) q
          = some (.dict (dictSet d "Parent" (.reference p))) := by
        rw [hstep, storeGet_insert_self]
      obtain ⟨d2, hg, hagree, hpar⟩ := ih (setParentStep p s q) q _ h1
      refine ⟨d2, by simpa [setParents] using hg, ?_, fun _ => ?_⟩
      · intro k hk
        rw [hagree k hk, dictGet_dictSet_ne _ _ _ _ hk]
      · by_cases hmem : q ∈ rest
        · exact hpar hmem
        · have hnm := setParents_get_not_mem p rest (setParentStep p s q) q hmem
          rw [hnm, h1] at hg
          have hd2 : d2 = dictSet d "Parent" (.reference p) := by
            injection hg with hg1
            injection hg1 with hg2
            exact hg2.symm
          rw [hd2, dictGet_dictSet_self]
    · have h1 : storeGet (setParentStep p s q) id = some (.dict d) := by
        rw [setParentStep_get_ne _ _ _ _ (fun hh => hq hh.symm)]
        exact h
      obtain ⟨d2, hg, hagree, hpar⟩ := ih _ id d h1
      refine ⟨d2, by simpa [setParents] using hg, hagree, fun hmem => hpar ?_⟩
      rcases List.mem_cons.1 hmem with h2 | h2
      · exact absurd h2.symm hq
      · exact h2

/-! Merge-loop invariants: disjoint identifier ranges, bounded keys,
page order accumulation, preservation of absorbed objects. -/

theorem length_mapStore (f : ObjectId → ObjectId) (s : Store) :
    (mapStore f s).length = s.length := by
  simp [mapStore]

theorem keys_renumber_lower (off : Nat) (d : Document) :
    ∀ id ∈ storeKeys (renumber_objects_with off d).objects, off ≤ id.1 := by
  intro id hid
  simp only [renumber_objects_with, storeKeys_mapStore] at hid
  obtain ⟨id0, _, rfl⟩ := List.mem_map.1 hid
  simp [shiftId]

theorem keys_renumber_upper (off : Nat) (d : Document) (hwf : Document.wf d) :
    ∀ id ∈ storeKeys (renumber_objects_with off d).objects,
      id.1 ≤ (renumber_objects_with off d).maxId := by
  intro id hid
  simp only [renumber_objects_with, storeKeys_mapStore] at hid
  obtain ⟨id0, hmem, rfl⟩ := List.mem_map.1 hid
  obtain ⟨p, hp, rfl⟩ := List.mem_map.1 hmem
  have := hwf.1 p hp
  simp only [renumber_objects_with, shiftId]
  omega

theorem nodup_keys_renumber (off : Nat) (d : Document) (hwf : Document.wf d) :
    (storeKeys (renumber_objects_with off d).objects).Nodup := by
  simp only [renumber_objects_with, storeKeys_mapStore]
  exact hwf.2.map (shiftId_injective off)

theorem mergeStep_maxId (fuel : Nat) (acc : MergeAcc) (d : Document) :
    (mergeStep fuel acc d).maxId = d.maxId + acc.maxId + 1 := by
  simp [mergeStep, renumber_objects_with]

theorem mergeStep_pageIds (fuel : Nat) (acc : MergeAcc) (d : Document) :
    (mergeStep fuel acc d).pageIds
      = acc.pageIds ++ (getPages d fuel).map (shiftId acc.maxId) := by
  simp [mergeStep, getPages_renumber]

theorem mergeStep_inv (fuel : Nat) (acc : MergeAcc) (d : Document)
    (hwf : Document.wf d) (hinv : AccInv acc) : AccInv (mergeStep fuel acc d) := by
  obtain ⟨hkeys, hpages, hnd, hone⟩ := hinv
  refine ⟨?_, ?_, ?_, ?_⟩
  · intro id hid
    rw [mergeStep_maxId]
    simp only [mergeStep] at hid
    rcases (mem_storeKeys_extend _ _ _).1 hid with h | h
    · have := hkeys id h
      omega
    · have := keys_renumber_upper acc.maxId d hwf id h
      simp only [renumber_objects_with] at this
      omega
  · intro id hid
    rw [mergeStep_maxId]
    simp only [mergeStep, List.mem_append] at hid
    rcases hid with h | h
    · have := hpages id h
      omega
    · obtain ⟨pd, hso, _⟩ := getPages_mem _ _ _ h
      have hk := storeGet_some_mem_keys _ _ _ hso
      have := keys_renumber_upper acc.maxId d hwf id hk
      simp only [renumber_objects_with] at this
      omega
  · simp only [mergeStep]
    exact nodup_storeKeys_extend _ _ hnd
  · rw [mergeStep_maxId]
    omega

theorem mergeStep_preserve (fuel : Nat) (acc : MergeAcc) (d : Document)
    (hinv : AccInv acc) :
    ∀ id v, storeGet acc.objects id = some v →
      storeGet (mergeStep fuel acc d).objects id = some v := by
  intro id v h
  have hk := storeGet_some_mem_keys _ _ _ h
  have hlt := hinv.1 id hk
  have hnot : id ∉ storeKeys (renumber_objects_with acc.maxId d).objects := by
    intro hmem
    have := keys_renumber_lower acc.maxId d id hmem
    omega
  simp only [mergeStep]
  rw [storeGet_extend_not_mem _ _ _ hnot]
  exact h

theorem mergeStep_length (fuel : Nat) (acc : MergeAcc) (d : Document)
    (hwf : Document.wf d) (hinv : AccInv acc) :
    (mergeStep fuel acc d).objects.length = acc.objects.length + d.objects.length := by
  simp only [mergeStep]
  rw [length_extend_disjoint _ _ (nodup_keys_renumber _ _ hwf)]
  · simp only [renumber_objects_with]
    rw [length_mapStore]
  · intro id hid hmem
    have h1 := keys_renumber_lower acc.maxId d id hid
    have h2 := hinv.1 id hmem
    omega

theorem mergeLoop_inv (fuel : Nat) :
    ∀ (docs : List Document) (acc : MergeAcc),
      (∀ d ∈ docs, Document.wf d) → AccInv acc →
      AccInv (mergeLoop fuel acc docs)
      ∧ acc.maxId ≤ (mergeLoop fuel acc docs).maxId
      ∧ (mergeLoop fuel acc docs).objects.length
          = acc.objects.length + (docs.map (fun d => d.objects.length)).sum
      ∧ (mergeLoop fuel acc docs).pageIds
          = acc.pageIds ++ (pagesFlat fuel acc.maxId docs).flatten
      ∧ (∀ id v, storeGet acc.objects id = some v →
          storeGet (mergeLoop fuel acc docs).objects id = some v) := by
  intro docs
  induction docs with
  | nil =>
    intro acc hwf hinv
    exact ⟨hinv, Nat.le_refl _, by simp [mergeLoop], by simp [mergeLoop, pagesFlat],
      fun _ _ h => h⟩
  | cons d rest ih =>
    intro acc hwf hinv
    have hwfd : Document.wf d := hwf d (List.mem_cons_self _ _)
    have hwfr : ∀ d2 ∈ rest, Document.wf d2 := fun d2 h2 => hwf d2 (List.mem_cons_of_mem _ h2)
    have hstep := mergeStep_inv fuel acc d hwfd hinv
    obtain ⟨ihinv, ihle, ihlen, ihpages, ihpres⟩ := ih (mergeStep fuel acc d) hwfr hstep
    have hloop : mergeLoop fuel acc (d :: rest) = mergeLoop fuel (mergeStep fuel acc d) rest := rfl
    refine ⟨hloop ▸ ihinv, ?_, ?_, ?_, ?_⟩
    · rw [hloop]
      have h1 : acc.maxId ≤ (mergeStep fuel acc d).maxId := by
        rw [mergeStep_maxId]; omega
      omega
    · rw [hloop, ihlen, mergeStep_length fuel acc d hwfd hinv]
      simp [Nat.add_assoc]
    · rw [hloop, ihpages, mergeStep_pageIds]
      have hofs : (mergeStep fuel acc d).maxId = d.maxId + acc.maxId + 1 :=
        mergeStep_maxId fuel acc d
      rw [hofs]
      simp [pagesFlat, List.append_assoc]
    · intro id v h
      rw [hloop]
      exact ihpres id v (mergeStep_preserve fuel acc d hinv id v h)

theorem mergeLoop_doc_objects (fuel : Nat) :
    ∀ (docs : List Document) (acc : MergeAcc),
      (∀ d ∈ docs, Document.wf d) → AccInv acc →
      ∀ k d, docs.get? k = some d →
      ∀ id v, storeGet d.objects id = some v →
        storeGet (mergeLoop fuel acc docs).objects
            (shiftId ((docOffsets acc.maxId docs).getD k 0) id)
          = some (renumberObj (shiftId ((docOffsets acc.maxId docs).getD k 0)) v) := by
  intro docs
  induction docs with
  | nil => intro acc _ _ k d hk; simp at hk
  | cons d0 rest ih =>
    intro acc hwf hinv k d hk id v hv
    have hwfd : Document.wf d0 := hwf d0 (List.mem_cons_self _ _)
    have hwfr : ∀ d2 ∈ rest, Document.wf d2 := fun d2 h2 => hwf d2 (List.mem_cons_of_mem _ h2)
    have hstep := mergeStep_inv fuel acc d0 hwfd hinv
    have hloop : mergeLoop fuel acc (d0 :: rest) = mergeLoop fuel (mergeStep fuel acc d0) rest := rfl
    have hofs : docOffsets acc.maxId (d0 :: rest)
        = acc.maxId :: docOffsets (d0.maxId + acc.maxId + 1) rest := rfl
    cases k with
    | zero =>
      have hd : d0 = d := by simpa using hk
      subst hd
      rw [hloop, hofs]
      simp only [List.getD_cons_zero]
      have hbind : storeGet (renumber_objects_with acc.maxId d0).objects
          (shiftId acc.maxId id) = some (renumberObj (shiftId acc.maxId) v) := by
        simp only [renumber_objects_with]
        rw [storeGet_mapStore _ (shiftId_injective acc.maxId), hv]
        rfl
      have hext : storeGet (mergeStep fuel acc d0).objects (shiftId acc.maxId id)
          = some (renumberObj (shiftId acc.maxId) v) := by
        simp only [mergeStep]
        exact storeGet_extend_mem _ _ _ _ (nodup_keys_renumber _ _ hwfd) hbind
      exact (mergeLoop_inv fuel rest (mergeStep fuel acc d0) hwfr hstep).2.2.2.2 _ _ hext
    | succ k =>
      have hk2 : rest.get? k = some d := by simpa using hk
      rw [hloop, hofs]
      simp only [List.getD_cons_succ]
      have := ih (mergeStep fuel acc d0) hwfr hstep k d hk2 id v hv
      rw [mergeStep_maxId] at this
      exact this

theorem pagesFlat_flatten_length (fuel : Nat) :
    ∀ (docs : List Document) (m : Nat),
      ((pagesFlat fuel m docs).flatten).length
        = (docs.map (fun d => (getPages d fuel).length)).sum := by
  intro docs
  induction docs with
  | nil => intro m; simp [pagesFlat]
  | cons d rest ih =>
    intro m
    simp [pagesFlat, ih]

theorem pagesFlat_get (fuel : Nat) :
    ∀ (docs : List Document) (m k : Nat) (d : Document),
      docs.get? k = some d →
      (pagesFlat fuel m docs).get? k
        = some ((getPages d fuel).map (shiftId ((docOffsets m docs).getD k 0))) := by
  intro docs
  induction docs with
  | nil => intro m k d hk; simp at hk
  | cons d0 rest ih =>
    intro m k d hk
    cases k with
    | zero =>
      have hd : d0 = d := by simpa using hk
      subst hd
      rfl
    | succ k =>
      have hk2 : rest.get? k = some d := by simpa using hk
      simpa [pagesFlat, docOffsets] using ih (d0.maxId + m + 1) k d hk2

/-! mergeCore-level facts. -/

theorem accInv_init : AccInv ⟨1, [], []⟩ :=
  ⟨by simp [storeKeys], by simp, by simp [storeKeys], Nat.le_refl 1⟩

theorem storeGet_extend_nil (t : Store) (id : ObjectId) (hnd : (storeKeys t).Nodup) :
    storeGet (storeExtend [] t) id = storeGet t id := by
  cases hso : storeGet t id with
  | some v => exact storeGet_extend_mem _ _ _ _ hnd hso
  | none =>
    have hnm : id ∉ storeKeys t := by
      intro hmem
      obtain ⟨v, hv⟩ := exists_storeGet_of_mem _ _ hmem
      rw [hv] at hso
      cases hso
    rw [storeGet_extend_not_mem _ _ _ hnm]
    rfl

theorem objListLength_refsToObjList (l : List ObjectId) :
    objListLength (refsToObjList l) = l.length := by
  induction l with
  | nil => rfl
  | cons x rest ih => simp [refsToObjList, objListLength, ih]

theorem mergeLoop_pageIds_type (fuel : Nat) :
    ∀ (docs : List Document) (acc : MergeAcc),
      (∀ d ∈ docs, Document.wf d) → AccInv acc →
      (∀ id ∈ acc.pageIds, ∃ pd, storeGet acc.objects id = some (.dict pd)
        ∧ dictGet pd "Type" = some (.name "Page")) →
      ∀ id ∈ (mergeLoop fuel acc docs).pageIds,
        ∃ pd, storeGet (mergeLoop fuel acc docs).objects id = some (.dict pd)
          ∧ dictGet pd "Type" = some (.name "Page") := by
  intro docs
  induction docs with
  | nil => intro acc _ _ h id hid; exact h id hid
  | cons d rest ih =>
    intro acc hwf hinv h id hid
    have hwfd : Document.wf d := hwf d (List.mem_cons_self _ _)
    have hwfr : ∀ d2 ∈ rest, Document.wf d2 := fun d2 h2 => hwf d2 (List.mem_cons_of_mem _ h2)
    have hstep := mergeStep_inv fuel acc d hwfd hinv
    refine ih (mergeStep fuel acc d) hwfr hstep ?_ id hid
    intro id2 hid2
    simp only [mergeStep, List.mem_append] at hid2
    rcases hid2 with h2 | h2
    · obtain ⟨pd, hg, hty⟩ := h id2 h2
      exact ⟨pd, mergeStep_preserve fuel acc d hinv _ _ hg, hty⟩
    · obtain ⟨pd, hg, hty⟩ := getPages_mem _ _ _ h2
      refine ⟨pd, ?_, hty⟩
      simp only [mergeStep]
      exact storeGet_extend_mem _ _ _ _ (nodup_keys_renumber _ _ hwfd) hg

/-- C1 (corrected claim): after merge_pdfs merges well-formed input
documents, all distinct objects in the merged store have distinct
identifiers and none are lost (the object count is the sum of the inputs'
plus the fresh Pages root and Catalog); the store's max_id counter is
greater than or equal to the number of every identifier present — with
equality for the freshly allocated Catalog, which sits at max_id itself
and the Pages root at max_id - 1 — so it is the next free identifier
max_id + 1, not max_id, that strictly exceeds every identifier present. -/
theorem merge_identifier_uniqueness (fuel : Nat) (docs : List Document)
    (hwf : ∀ d ∈ docs, Document.wf d) :
    (storeKeys (mergeCore fuel docs).objects).Nodup
    ∧ (∀ id ∈ storeKeys (mergeCore fuel docs).objects,
        id.1 ≤ (mergeCore fuel docs).maxId)
    ∧ (∀ id ∈ storeKeys (mergeCore fuel docs).objects,
        id.1 < (mergeCore fuel docs).maxId + 1)
    ∧ ((mergeCore fuel docs).maxId - 1, 0) ∈ storeKeys (mergeCore fuel docs).objects
    ∧ ((mergeCore fuel docs).maxId, 0) ∈ storeKeys (mergeCore fuel docs).objects
    ∧ (mergeCore fuel docs).objects.length
        = (docs.map (fun d => d.objects.length)).sum + 2 := by
  obtain ⟨hinv, hle, hlen, hpages, hpres⟩ := mergeLoop_inv fuel docs ⟨1, [], []⟩ hwf accInv_init
  obtain ⟨hkeys, hpid, hnd, hone⟩ := hinv
  set acc := mergeLoop fuel ⟨1, [], []⟩ docs with hacc
  have hobj : (mergeCore fuel docs).objects = setParents (acc.maxId - 1 + 1, 0)
      (storeInsert
        (storeInsert (storeExtend [] acc.objects) (acc.maxId - 1 + 2, 0)
          (.dict (catalogDict (acc.maxId - 1 + 1, 0))))
        (acc.maxId - 1 + 1, 0) (.dict (pagesRootDict acc.pageIds)))
      acc.pageIds := rfl
  have hmax : (mergeCore fuel docs).maxId = acc.maxId - 1 + 2 := rfl
  have hm1 : acc.maxId - 1 + 1 = acc.maxId := by omega
  have hm2 : acc.maxId - 1 + 2 = acc.maxId + 1 := by omega
  have hnd0 : (storeKeys (storeExtend [] acc.objects)).Nodup :=
    nodup_storeKeys_extend _ _ (by simp [storeKeys])
  have hmem0 : ∀ id, id ∈ storeKeys (storeExtend [] acc.objects) ↔ id ∈ storeKeys acc.objects := by
    intro id
    rw [mem_storeKeys_extend]
    simp [storeKeys]
  have hmemAll : ∀ id, id ∈ storeKeys (mergeCore fuel docs).objects ↔
      (id = (acc.maxId - 1 + 1, 0) ∨ id = (acc.maxId - 1 + 2, 0) ∨ id ∈ storeKeys acc.objects) := by
    intro id
    rw [hobj, mem_storeKeys_setParents, mem_storeKeys_insert, mem_storeKeys_insert, hmem0]
  refine ⟨?_, ?_, ?_, ?_, ?_, ?_⟩
  · rw [hobj]
    exact nodup_storeKeys_setParents _ _ _
      (nodup_storeKeys_insert _ _ _ (nodup_storeKeys_insert _ _ _ hnd0))
  · intro id hid
    rw [hmax, hm2]
    rcases (hmemAll id).1 hid with h | h | h
    · rw [h]; omega
    · rw [h]; omega
    · have := hkeys id h
      omega
  · intro id hid
    rw [hmax, hm2]
    rcases (hmemAll id).1 hid with h | h | h
    · rw [h]; omega
    · rw [h]; omega
    · have := hkeys id h
      omega
  · rw [hmax, hm2]
    rw [show (acc.maxId + 1 - 1, 0) = ((acc.maxId - 1 + 1 : Nat), 0) by rw [hm1]; simp]
    exact (hmemAll _).2 (Or.inl rfl)
  · rw [hmax, hm2]
    rw [show ((acc.maxId + 1 : Nat), 0) = ((acc.maxId - 1 + 2 : Nat), 0) by rw [hm2]]
    exact (hmemAll _).2 (Or.inr (Or.inl rfl))
  · rw [hobj, length_setParents]
    have hlen0 : (storeExtend [] acc.objects).length = acc.objects.length := by
      rw [length_extend_disjoint _ _ hnd (by simp [storeKeys])]
      simp
    have hcat_not : ((acc.maxId - 1 + 2 : Nat), 0) ∉ storeKeys (storeExtend [] acc.objects) := by
      intro hmem
      have := hkeys _ ((hmem0 _).1 hmem)
      omega
    have hpag_not : ((acc.maxId - 1 + 1 : Nat), 0) ∉ storeKeys
        (storeInsert (storeExtend [] acc.objects) (acc.maxId - 1 + 2, 0)
          (.dict (catalogDict (acc.maxId - 1 + 1, 0)))) := by
      intro hmem
      rcases (mem_storeKeys_insert _ _ _ _).1 hmem with h | h
      · have := congrArg Prod.fst h
        simp at this
      · have := hkeys _ ((hmem0 _).1 h)
        omega
    rw [length_insert_not_mem _ _ _ hpag_not, length_insert_not_mem _ _ _ hcat_not, hlen0, hlen]
    simp

theorem refIds_refsToObjList (l : List ObjectId) :
    refIds (refsToObjList l) = l := by
  induction l with
  | nil => rfl
  | cons x rest ih => simp [refsToObjList, refIds, ih]

/-- Transfer a binding of the merge loop's store into the final merged
store: the Pages root and Catalog are inserted at fresh higher numbers, and
setParents only rewrites the Parent entry of recorded pages. -/
theorem mergeCore_get_from_loop (fuel : Nat) (docs : List Document)
    (hwf : ∀ d ∈ docs, Document.wf d) :
    ∀ id, id.1 < (mergeLoop fuel ⟨1, [], []⟩ docs).maxId →
    ∀ d0, storeGet (mergeLoop fuel ⟨1, [], []⟩ docs).objects id = some (.dict d0) →
    ∃ d2, storeGet (mergeCore fuel docs).objects id = some (.dict d2)
      ∧ (∀ k, k ≠ "Parent" → dictGet d2 k = dictGet d0 k)
      ∧ (id ∈ merge_page_ids fuel docs →
          dictGet d2 "Parent"
            = some (.reference ((mergeLoop fuel ⟨1, [], []⟩ docs).maxId - 1 + 1, 0))) := by
  obtain ⟨hinv, hle, hlen, hpages, hpres⟩ := mergeLoop_inv fuel docs ⟨1, [], []⟩ hwf accInv_init
  obtain ⟨hkeys, hpid, hnd, hone⟩ := hinv
  intro id hbound d0 hget
  set acc := mergeLoop fuel ⟨1, [], []⟩ docs with hacc
  have hobj : (mergeCore fuel docs).objects = setParents (acc.maxId - 1 + 1, 0)
      (storeInsert
        (storeInsert (storeExtend [] acc.objects) (acc.maxId - 1 + 2, 0)
          (.dict (catalogDict (acc.maxId - 1 + 1, 0))))
        (acc.maxId - 1 + 1, 0) (.dict (pagesRootDict acc.pageIds)))
      acc.pageIds := rfl
  have hne1 : id ≠ ((acc.maxId - 1 + 1 : Nat), 0) := by
    intro hh
    have := congrArg Prod.fst hh
    simp at this
    omega
  have hne2 : id ≠ ((acc.maxId - 1 + 2 : Nat), 0) := by
    intro hh
    have := congrArg Prod.fst hh
    simp at this
    omega
  have hget2 : storeGet
      (storeInsert
        (storeInsert (storeExtend [] acc.objects) (acc.maxId - 1 + 2, 0)
          (.dict (catalogDict (acc.maxId - 1 + 1, 0))))
        (acc.maxId - 1 + 1, 0) (.dict (pagesRootDict acc.pageIds))) id
      = some (.dict d0) := by
    rw [storeGet_insert_ne _ _ _ _ hne1, storeGet_insert_ne _ _ _ _ hne2,
      storeGet_extend_nil _ _ hnd]
    exact hget
  obtain ⟨d2, hg3, hagree, hpar⟩ := setParents_get_dict _ acc.pageIds _ id d0 hget2
  exact ⟨d2, by rw [hobj]; exact hg3, hagree, fun hmem => hpar hmem⟩

/-- The merged store binds the fresh Pages root identifier to the Pages
root dictionary built from the recorded page ids. -/
theorem mergeCore_get_pagesRoot (fuel : Nat) (docs : List Document)
    (hwf : ∀ d ∈ docs, Document.wf d) :
    storeGet (mergeCore fuel docs).objects
        ((mergeLoop fuel ⟨1, [], []⟩ docs).maxId - 1 + 1, 0)
      = some (.dict (pagesRootDict (merge_page_ids fuel docs))) := by
  obtain ⟨hinv, hle, hlen, hpages, hpres⟩ := mergeLoop_inv fuel docs ⟨1, [], []⟩ hwf accInv_init
  obtain ⟨hkeys, hpid, hnd, hone⟩ := hinv
  set acc := mergeLoop fuel ⟨1, [], []⟩ docs with hacc
  have hobj : (mergeCore fuel docs).objects = setParents (acc.maxId - 1 + 1, 0)
      (storeInsert
        (storeInsert (storeExtend [] acc.objects) (acc.maxId - 1 + 2, 0)
          (.dict (catalogDict (acc.maxId - 1 + 1, 0))))
        (acc.maxId - 1 + 1, 0) (.dict (pagesRootDict acc.pageIds)))
      acc.pageIds := rfl
  have hnotp : ((acc.maxId - 1 + 1 : Nat), 0) ∉ acc.pageIds := by
    intro hmem
    have := hpid _ hmem
    simp at this
    omega
  rw [hobj, setParents_get_not_mem _ _ _ _ hnotp, storeGet_insert_self]
  rfl

/-- The merged store binds the fresh Catalog identifier to the Catalog
dictionary pointing at the fresh Pages root. -/
theorem mergeCore_get_catalog (fuel : Nat) (docs : List Document)
    (hwf : ∀ d ∈ docs, Document.wf d) :
    storeGet (mergeCore fuel docs).objects
        ((mergeLoop fuel ⟨1, [], []⟩ docs).maxId - 1 + 2, 0)
      = some (.dict (catalogDict ((mergeLoop fuel ⟨1, [], []⟩ docs).maxId - 1 + 1, 0))) := by
  obtain ⟨hinv, hle, hlen, hpages, hpres⟩ := mergeLoop_inv fuel docs ⟨1, [], []⟩ hwf accInv_init
  obtain ⟨hkeys, hpid, hnd, hone⟩ := hinv
  set acc := mergeLoop fuel ⟨1, [], []⟩ docs with hacc
  have hobj : (mergeCore fuel docs).objects = setParents (acc.maxId - 1 + 1, 0)
      (storeInsert
        (storeInsert (storeExtend [] acc.objects) (acc.maxId - 1 + 2, 0)
          (.dict (catalogDict (acc.maxId - 1 + 1, 0))))
        (acc.maxId - 1 + 1, 0) (.dict (pagesRootDict acc.pageIds)))
      acc.pageIds := rfl
  have hnotc : ((acc.maxId - 1 + 2 : Nat), 0) ∉ acc.pageIds := by
    intro hmem
    have := hpid _ hmem
    simp at this
    omega
  have hnecp : ((acc.maxId - 1 + 2 : Nat), 0) ≠ ((acc.maxId - 1 + 1 : Nat), 0) := by
    intro hh
    have := congrArg Prod.fst hh
    simp at this
  rw [hobj, setParents_get_not_mem _ _ _ _ hnotc, storeGet_insert_ne _ _ _ _ hnecp,
    storeGet_insert_self]

/-- C2: for a merge of well-formed input documents with page counts
p1…pN, the fresh Pages root's Count field equals Σpi and its Kids array
holds exactly Σpi page references (the recorded page ids in order). -/
theorem merge_page_count_additivity (fuel : Nat) (docs : List Document)
    (hwf : ∀ d ∈ docs, Document.wf d) :
    ∃ pd, storeGet (mergeCore fuel docs).objects ((mergeCore fuel docs).maxId - 1, 0)
        = some (.dict pd)
      ∧ dictGet pd "Count"
          = some (.integer ((docs.map (fun d => (getPages d fuel).length)).sum))
      ∧ dictGet pd "Kids" = some (.array (refsToObjList (merge_page_ids fuel docs)))
      ∧ objListLength (refsToObjList (merge_page_ids fuel docs))
          = (docs.map (fun d => (getPages d fuel).length)).sum
      ∧ (merge_page_ids fuel docs).length
          = (docs.map (fun d => (getPages d fuel).length)).sum := by
  obtain ⟨hinv, hle, hlen, hpages, hpres⟩ := mergeLoop_inv fuel docs ⟨1, [], []⟩ hwf accInv_init
  obtain ⟨hkeys, hpid, hnd, hone⟩ := hinv
  set acc := mergeLoop fuel ⟨1, [], []⟩ docs with hacc
  have hplen : (merge_page_ids fuel docs).length
      = (docs.map (fun d => (getPages d fuel).length)).sum := by
    show acc.pageIds.length = _
    rw [hpages]
    simpa using pagesFlat_flatten_length fuel docs 1
  have hmaxpair : (((mergeCore fuel docs).maxId - 1 : Nat), (0 : Nat))
      = ((acc.maxId - 1 + 1 : Nat), 0) := by
    have hmax : (mergeCore fuel docs).maxId = acc.maxId - 1 + 2 := rfl
    rw [hmax]
    simp
  refine ⟨pagesRootDict (merge_page_ids fuel docs), ?_, ?_, ?_, ?_, hplen⟩
  · rw [hmaxpair]
    exact mergeCore_get_pagesRoot fuel docs hwf
  · show dictGet (pagesRootDict acc.pageIds) "Count" = _
    unfold pagesRootDict
    rw [dictGet_dictSet_ne _ _ _ _ (by decide), dictGet_dictSet_self]
    rw [show acc.pageIds.length = (docs.map (fun d => (getPages d fuel).length)).sum from hplen]
  · show dictGet (pagesRootDict acc.pageIds) "Kids" = _
    unfold pagesRootDict
    rw [dictGet_dictSet_self]
    rfl
  · rw [objListLength_refsToObjList]
    exact hplen

/-- C3: the merged output's page sequence is exactly the concatenation, in
input order, of each input document's pages in their original order (each
shifted by its document's identifier offset); the object stored at each
merged page id is the renumbered original page dictionary with only its
Parent entry rewritten to the fresh Pages root; and walking the merged
page tree returns exactly that sequence. -/
theorem merge_order_preservation (fuel : Nat) (docs : List Document)
    (hwf : ∀ d ∈ docs, Document.wf d) :
    merge_page_ids fuel docs = (pagesFlat fuel 1 docs).flatten
    ∧ (∀ k d, docs.get? k = some d →
        (pagesFlat fuel 1 docs).get? k
          = some ((getPages d fuel).map (shiftId ((docOffsets 1 docs).getD k 0))))
    ∧ (∀ k d pid, docs.get? k = some d → pid ∈ getPages d fuel →
        ∃ pd pd2,
          storeGet d.objects pid = some (.dict pd)
          ∧ storeGet (mergeCore fuel docs).objects
              (shiftId ((docOffsets 1 docs).getD k 0) pid) = some (.dict pd2)
          ∧ (∀ key, key ≠ "Parent" →
              dictGet pd2 key
                = dictGet (renumberDict (shiftId ((docOffsets 1 docs).getD k 0)) pd) key)
          ∧ dictGet pd2 "Parent"
              = some (.reference ((mergeCore fuel docs).maxId - 1, 0)))
    ∧ (∀ fuel2, (merge_page_ids fuel docs).length + 1 ≤ fuel2 →
        getPages (mergeCore fuel docs) fuel2 = merge_page_ids fuel docs) := by
  obtain ⟨hinv, hle, hlen, hpages, hpres⟩ := mergeLoop_inv fuel docs ⟨1, [], []⟩ hwf accInv_init
  obtain ⟨hkeys, hpid, hnd, hone⟩ := hinv
  set acc := mergeLoop fuel ⟨1, [], []⟩ docs with hacc
  have hflat : merge_page_ids fuel docs = (pagesFlat fuel 1 docs).flatten := by
    show acc.pageIds = _
    rw [hpages]
    rfl
  have hmaxpair : (((mergeCore fuel docs).maxId - 1 : Nat), (0 : Nat))
      = ((acc.maxId - 1 + 1 : Nat), 0) := by
    have hmax : (mergeCore fuel docs).maxId = acc.maxId - 1 + 2 := rfl
    rw [hmax]
    simp
  have hpagetype : ∀ id ∈ acc.pageIds,
      ∃ pd, storeGet acc.objects id = some (.dict pd)
        ∧ dictGet pd "Type" = some (.name "Page") := by
    intro id hid
    exact mergeLoop_pageIds_type fuel docs ⟨1, [], []⟩ hwf accInv_init (by simp) id hid
  refine ⟨hflat, fun k d hk => pagesFlat_get fuel docs 1 k d hk, ?_, ?_⟩
  · intro k d pid hk hpidmem
    obtain ⟨pd, hso, htyp⟩ := getPages_mem d fuel pid hpidmem
    have hloopget := mergeLoop_doc_objects fuel docs ⟨1, [], []⟩ hwf accInv_init
      k d hk pid (.dict pd) hso
    have hloopget2 : storeGet acc.objects (shiftId ((docOffsets 1 docs).getD k 0) pid)
        = some (.dict (renumberDict (shiftId ((docOffsets 1 docs).getD k 0)) pd)) := by
      rw [← hacc] at hloopget
      exact hloopget
    have hmem : shiftId ((docOffsets 1 docs).getD k 0) pid ∈ acc.pageIds := by
      have hget := pagesFlat_get fuel docs 1 k d hk
      have hL := List.get?_mem hget
      have hx : shiftId ((docOffsets 1 docs).getD k 0) pid
          ∈ (getPages d fuel).map (shiftId ((docOffsets 1 docs).getD k 0)) :=
        List.mem_map_of_mem _ hpidmem
      have : shiftId ((docOffsets 1 docs).getD k 0) pid ∈ (pagesFlat fuel 1 docs).flatten :=
        List.mem_flatten.2 ⟨_, hL, hx⟩
      rw [show acc.pageIds = (pagesFlat fuel 1 docs).flatten from hflat]
      exact this
    have hbound : (shiftId ((docOffsets 1 docs).getD k 0) pid).1 < acc.maxId := hpid _ hmem
    obtain ⟨d2, hg, hagree, hpar⟩ := mergeCore_get_from_loop fuel docs hwf
      _ hbound _ hloopget2
    refine ⟨pd, d2, hso, hg, hagree, ?_⟩
    rw [hmaxpair]
    exact hpar hmem
  · intro fuel2 hfuel2
    cases fuel2 with
    | zero => omega
    | succ f2 =>
      have htrail : (mergeCore fuel docs).trailer
          = dictSet .nil "Root" (.reference (acc.maxId - 1 + 2, 0)) := rfl
      have hcat := mergeCore_get_catalog fuel docs hwf
      have hpr := mergeCore_get_pagesRoot fuel docs hwf
      have hcatpages : dictGet (catalogDict ((acc.maxId - 1 + 1 : Nat), 0)) "Pages"
          = some (.reference (acc.maxId - 1 + 1, 0)) := by
        unfold catalogDict
        rw [dictGet_dictSet_self]
      have htype : dictGet (pagesRootDict (merge_page_ids fuel docs)) "Type"
          = some (.name "Pages") := by
        unfold pagesRootDict
        rw [dictGet_dictSet_ne _ _ _ _ (by decide), dictGet_dictSet_ne _ _ _ _ (by decide),
          dictGet_dictSet_self]
      have hkids : dictGet (pagesRootDict (merge_page_ids fuel docs)) "Kids"
          = some (.array (refsToObjList (merge_page_ids fuel docs))) := by
        unfold pagesRootDict
        rw [dictGet_dictSet_self]
      rw [← hacc] at hcat hpr
      unfold getPages
      rw [htrail]
      simp only [dictGet_dictSet_self]
      simp only [hcat, hcatpages]
      simp only [collectPagesGo, hpr, htype, hkids]
      simp only [if_neg (by decide : ¬ ("Pages" : String) = "Page"), if_pos rfl]
      rw [refIds_refsToObjList]
      have hleaf : ∀ id ∈ merge_page_ids fuel docs,
          ∃ pd2, storeGet (mergeCore fuel docs).objects id = some (.dict pd2)
            ∧ dictGet pd2 "Type" = some (.name "Page") := by
        intro id hid
        obtain ⟨pd, hg0, hty0⟩ := hpagetype id hid
        have hbound : id.1 < acc.maxId := hpid _ hid
        obtain ⟨d2, hg2, hagree, _⟩ := mergeCore_get_from_loop fuel docs hwf id hbound pd hg0
        exact ⟨d2, hg2, by rw [hagree "Type" (by decide)]; exact hty0⟩
      rw [List.append_nil]
      exact collectPagesGo_leaves _ f2 _ hleaf (by omega)

/-- C1 counterexample: merging the concrete one-page document exDoc1
leaves max_id = 6 while the identifier (6,0) — the freshly allocated
Catalog — is present in the store, so max_id is not strictly greater than
the number component of every identifier present. -/
theorem merge_max_id_equals_catalog_number :
    (mergeCore 9 [exDoc1]).maxId = 6
    ∧ ((6, 0) : ObjectId) ∈ storeKeys (mergeCore 9 [exDoc1]).objects
    ∧ ¬ (∀ id ∈ storeKeys (mergeCore 9 [exDoc1]).objects,
          id.1 < (mergeCore 9 [exDoc1]).maxId) := by decide

/-- C1 witness: the amended uniqueness statement at the concrete input
exDoc1. -/
theorem merge_identifier_uniqueness_witness :
    (∀ d ∈ [exDoc1], Document.wf d)
    ∧ (storeKeys (mergeCore 9 [exDoc1]).objects).Nodup
    ∧ (mergeCore 9 [exDoc1]).objects.length
        = (([exDoc1]).map (fun d => d.objects.length)).sum + 2 :=
  ⟨by decide, (merge_identifier_uniqueness 9 [exDoc1] (by decide)).1,
    (merge_identifier_uniqueness 9 [exDoc1] (by decide)).2.2.2.2.2⟩

/-- C2 witness: the spec's example — input page counts [1, 1, 6, 6] merge
to a Pages root whose Count is their sum 14. -/
theorem merge_page_count_additivity_witness :
    (∀ d ∈ [exDoc1, exDoc1, exDoc6, exDoc6], Document.wf d)
    ∧ (([exDoc1, exDoc1, exDoc6, exDoc6]).map (fun d => (getPages d 30).length)).sum = 14
    ∧ (∃ pd, storeGet (mergeCore 30 [exDoc1, exDoc1, exDoc6, exDoc6]).objects
          ((mergeCore 30 [exDoc1, exDoc1, exDoc6, exDoc6]).maxId - 1, 0) = some (.dict pd)
        ∧ dictGet pd "Count" = some (.integer
            ((([exDoc1, exDoc1, exDoc6, exDoc6]).map (fun d => (getPages d 30).length)).sum))
        ∧ dictGet pd "Kids" = some (.array (refsToObjList
            (merge_page_ids 30 [exDoc1, exDoc1, exDoc6, exDoc6])))
        ∧ objListLength (refsToObjList (merge_page_ids 30 [exDoc1, exDoc1, exDoc6, exDoc6]))
            = (([exDoc1, exDoc1, exDoc6, exDoc6]).map (fun d => (getPages d 30).length)).sum
        ∧ (merge_page_ids 30 [exDoc1, exDoc1, exDoc6, exDoc6]).length
            = (([exDoc1, exDoc1, exDoc6, exDoc6]).map (fun d => (getPages d 30).length)).sum) :=
  ⟨by decide, by decide, merge_page_count_additivity 30 _ (by decide)⟩

/-- C3 witness: order preservation at a concrete two-document input, and
the merged page tree walks back to exactly the recorded sequence. -/
theorem merge_order_preservation_witness :
    (∀ d ∈ [exDoc1, exDoc6], Document.wf d)
    ∧ merge_page_ids 20 [exDoc1, exDoc6] = (pagesFlat 20 1 [exDoc1, exDoc6]).flatten
    ∧ getPages (mergeCore 20 [exDoc1, exDoc6]) 20 = merge_page_ids 20 [exDoc1, exDoc6] :=
  ⟨by decide, (merge_order_preservation 20 [exDoc1, exDoc6] (by decide)).1,
    (merge_order_preservation 20 [exDoc1, exDoc6] (by decide)).2.2.2 20 (by decide)⟩

/-! Error handling of merge_pdfs and overlay_watermark. -/

theorem check_exists_ok (fe : String → Bool) :
    ∀ l, (∀ q ∈ l, fe q = true) → check_exists fe l = .ok () := by
  intro l
  induction l with
  | nil => intro _; rfl
  | cons q rest ih =>
    intro h
    have hq : fe q = true := h q (List.mem_cons_self _ _)
    simp only [check_exists, hq, if_pos]
    exact ih (fun q2 h2 => h q2 (List.mem_cons_of_mem _ h2))

theorem check_exists_err (fe : String → Bool) :
    ∀ pre p suf, (∀ q ∈ pre, fe q = true) → fe p = false →
      check_exists fe (pre ++ p :: suf) = .error (.fileNotFound p) := by
  intro pre
  induction pre with
  | nil =>
    intro p suf _ hp
    simp [check_exists, hp]
  | cons q rest ih =>
    intro p suf h hp
    have hq : fe q = true := h q (List.mem_cons_self _ _)
    simp only [List.cons_append, check_exists, hq, if_pos]
    exact ih p suf (fun q2 h2 => h q2 (List.mem_cons_of_mem _ h2)) hp

theorem load_documents_emptyPdf (load : String → Option Document) (fuel : Nat) :
    ∀ pre p suf, (∀ q ∈ pre, ∃ dq, load q = some dq ∧ getPages dq fuel ≠ []) →
      (∃ dp, load p = some dp ∧ getPages dp fuel = []) →
      load_documents load fuel (pre ++ p :: suf) = .error (.emptyPdf p) := by
  intro pre
  induction pre with
  | nil =>
    intro p suf _ hp
    obtain ⟨dp, hdp, hpages⟩ := hp
    simp only [List.nil_append, load_documents, hdp, hpages]
    rfl
  | cons q rest ih =>
    intro p suf h hp
    obtain ⟨dq, hdq, hne⟩ := h q (List.mem_cons_self _ _)
    have hemp : (getPages dq fuel).isEmpty = false := by
      cases hgp : getPages dq fuel with
      | nil => exact absurd hgp hne
      | cons a l => rfl
    have ihrec := ih p suf (fun q2 h2 => h q2 (List.mem_cons_of_mem _ h2)) hp
    simp only [List.cons_append, load_documents, hdq, hemp, Bool.false_eq_true, if_false]
    rw [show rest.append (p :: suf) = rest ++ p :: suf from rfl, ihrec]

/-- C4: merge_pdfs fails with the "No input files provided" error on an
empty input list; fails with FileNotFound naming the first nonexistent
path — before any document is loaded, so uniformly in the load function;
fails with EmptyPdf naming the first input that parses to zero pages; and
in every failure case the result is an error, so the output document that
would be saved is never produced. -/
theorem merge_error_handling (fe : String → Bool) (load : String → Option Document)
    (fuel : Nat) :
    (merge_pdfs fe load fuel [] = .error (.general "No input files provided")
      ∧ ∀ d, merge_pdfs fe load fuel [] ≠ .ok d)
    ∧ (∀ pre p suf, (∀ q ∈ pre, fe q = true) → fe p = false →
        ∀ load2 : String → Option Document,
          merge_pdfs fe load2 fuel (pre ++ p :: suf) = .error (.fileNotFound p)
          ∧ ∀ d, merge_pdfs fe load2 fuel (pre ++ p :: suf) ≠ .ok d)
    ∧ (∀ pre p suf, (∀ q ∈ pre ++ p :: suf, fe q = true) →
        (∀ q ∈ pre, ∃ dq, load q = some dq ∧ getPages dq fuel ≠ []) →
        (∃ dp, load p = some dp ∧ getPages dp fuel = []) →
        merge_pdfs fe load fuel (pre ++ p :: suf) = .error (.emptyPdf p)
        ∧ ∀ d, merge_pdfs fe load fuel (pre ++ p :: suf) ≠ .ok d) := by
  refine ⟨⟨rfl, fun d hd => by cases hd⟩, ?_, ?_⟩
  · intro pre p suf h hp load2
    have hne : (pre ++ p :: suf).isEmpty = false := by
      cases pre <;> rfl
    have hce := check_exists_err fe pre p suf h hp
    have heq : merge_pdfs fe load2 fuel (pre ++ p :: suf) = .error (.fileNotFound p) := by
      simp only [merge_pdfs, hne, hce]
      rfl
    exact ⟨heq, fun d hd => by rw [heq] at hd; cases hd⟩
  · intro pre p suf hall hpre hp
    have hne : (pre ++ p :: suf).isEmpty = false := by
      cases pre <;> rfl
    have hce := check_exists_ok fe (pre ++ p :: suf) hall
    have hld := load_documents_emptyPdf load fuel pre p suf hpre hp
    have heq : merge_pdfs fe load fuel (pre ++ p :: suf) = .error (.emptyPdf p) := by
      simp only [merge_pdfs, hne, hce, hld]
      rfl
    exact ⟨heq, fun d hd => by rw [heq] at hd; cases hd⟩

/-- C4 witness: the three failure modes at concrete inputs — an empty
input list, a missing path "a.pdf", and a zero-page document at "a.pdf". -/
theorem merge_error_handling_witness :
    merge_pdfs (fun _ => true) (fun _ => some exDocEmpty) 5 []
        = .error (.general "No input files provided")
    ∧ merge_pdfs (fun _ => false) (fun _ => some exDocEmpty) 5 ["a.pdf"]
        = .error (.fileNotFound "a.pdf")
    ∧ merge_pdfs (fun _ => true) (fun _ => some exDocEmpty) 5 ["a.pdf"]
        = .error (.emptyPdf "a.pdf") :=
  ⟨(merge_error_handling (fun _ => true) (fun _ => some exDocEmpty) 5).1.1,
    ((merge_error_handling (fun _ => false) (fun _ => some exDocEmpty) 5).2.1
      [] "a.pdf" [] (by simp) rfl (fun _ => some exDocEmpty)).1,
    ((merge_error_handling (fun _ => true) (fun _ => some exDocEmpty) 5).2.2
      [] "a.pdf" [] (by simp) (by simp)
      ⟨exDocEmpty, rfl, by decide⟩).1⟩

/-- C10: overlay_watermark returns an error whose message reports both
page counts — and produces no output document — whenever the source and
watermark page counts differ; hence it proceeds to modify and save the
source only when the counts are equal. -/
theorem overlay_watermark_page_count_mismatch (fuel : Nat) (src wm : Document)
    (h : (getPages src fuel).length ≠ (getPages wm fuel).length) :
    overlay_watermark fuel src wm
      = .error (.general ("Page count mismatch: source has "
          ++ Nat.repr (getPages src fuel).length ++ " pages, watermark has "
          ++ Nat.repr (getPages wm fuel).length ++ " pages"))
    ∧ ∀ d, overlay_watermark fuel src wm ≠ .ok d := by
  have h1 : overlay_watermark fuel src wm
      = .error (.general ("Page count mismatch: source has "
          ++ Nat.repr (getPages src fuel).length ++ " pages, watermark has "
          ++ Nat.repr (getPages wm fuel).length ++ " pages")) := by
    simp only [overlay_watermark]
    rw [if_pos h]
  exact ⟨h1, fun d hd => by rw [h1] at hd; cases hd⟩

/-- C10 witness: a one-page source against a two-page watermark fails with
the message reporting counts 1 and 2. -/
theorem overlay_watermark_page_count_mismatch_witness :
    (getPages exDoc1 9).length ≠ (getPages exDoc2 9).length
    ∧ overlay_watermark 9 exDoc1 exDoc2
        = .error (.general ("Page count mismatch: source has "
            ++ Nat.repr (getPages exDoc1 9).length ++ " pages, watermark has "
            ++ Nat.repr (getPages exDoc2 9).length ++ " pages")) :=
  ⟨by decide, (overlay_watermark_page_count_mismatch 9 exDoc1 exDoc2 (by decide)).1⟩

/-- C6: after stamping, the page holds a directly-set Resources dictionary
whose XObject subdictionary contains the added /HeaderFooter entry; no
binding other than the page's own changes (so a Resources dictionary held
by reference, and any ancestor's dictionary, is never mutated); and two
sibling pages that both had no direct Resources (inheriting from a common
ancestor) end up with their own distinct Resources dictionaries while
every other object — the ancestor included — is unchanged. -/
theorem resources_never_shared_mutated :
    (∀ (objects : Store) (pageId xid : ObjectId) (pd : PdfDict),
      storeGet objects pageId = some (.dict pd) →
      ∃ s2, add_xobject_to_page_resources objects pageId xid = .ok s2
        ∧ (∃ res xo, storeGet s2 pageId = some (.dict (dictSet pd "Resources" (.dict res)))
            ∧ dictGet res "XObject" = some (.dict xo)
            ∧ dictGet xo "HeaderFooter" = some (.reference xid))
        ∧ (∀ id, id ≠ pageId → storeGet s2 id = storeGet objects id))
    ∧ (∀ (objects : Store) (p1 p2 x1 x2 : ObjectId) (pd1 pd2 : PdfDict),
        p1 ≠ p2 → x1 ≠ x2 →
        storeGet objects p1 = some (.dict pd1) →
        storeGet objects p2 = some (.dict pd2) →
        dictGet pd1 "Resources" = none →
        dictGet pd2 "Resources" = none →
        ∃ s1 s2 r1 r2,
          add_xobject_to_page_resources objects p1 x1 = .ok s1
          ∧ add_xobject_to_page_resources s1 p2 x2 = .ok s2
          ∧ storeGet s2 p1 = some (.dict (dictSet pd1 "Resources" (.dict r1)))
          ∧ storeGet s2 p2 = some (.dict (dictSet pd2 "Resources" (.dict r2)))
          ∧ r1 ≠ r2
          ∧ dictGet r1 "XObject" = some (.dict (dictSet .nil "HeaderFooter" (.reference x1)))
          ∧ dictGet r2 "XObject" = some (.dict (dictSet .nil "HeaderFooter" (.reference x2)))
          ∧ (∀ id, id ≠ p1 → id ≠ p2 → storeGet s2 id = storeGet objects id)) := by
  constructor
  · intro objects pageId xid pd h
    simp only [add_xobject_to_page_resources, h]
    refine ⟨_, rfl, ⟨_, _, storeGet_insert_self _ _ _,
      dictGet_dictSet_self _ _ _, dictGet_dictSet_self _ _ _⟩, ?_⟩
    intro id hne
    exact storeGet_insert_ne _ _ _ _ hne
  · intro objects p1 p2 x1 x2 pd1 pd2 hne hx h1 h2 hres1 hres2
    have e1 : add_xobject_to_page_resources objects p1 x1
        = .ok (storeInsert objects p1 (.dict (dictSet pd1 "Resources"
            (.dict (dictSet .nil "XObject"
              (.dict (dictSet .nil "HeaderFooter" (.reference x1)))))))) := by
      simp only [add_xobject_to_page_resources, h1, hres1, dictGet]
    have hs1p2 : storeGet (storeInsert objects p1 (.dict (dictSet pd1 "Resources"
        (.dict (dictSet .nil "XObject"
          (.dict (dictSet .nil "HeaderFooter" (.reference x1)))))))) p2
        = some (.dict pd2) := by
      rw [storeGet_insert_ne _ _ _ _ (Ne.symm hne)]
      exact h2
    have e2 : add_xobject_to_page_resources
        (storeInsert objects p1 (.dict (dictSet pd1 "Resources"
          (.dict (dictSet .nil "XObject"
            (.dict (dictSet .nil "HeaderFooter" (.reference x1)))))))) p2 x2
        = .ok (storeInsert
            (storeInsert objects p1 (.dict (dictSet pd1 "Resources"
              (.dict (dictSet .nil "XObject"
                (.dict (dictSet .nil "HeaderFooter" (.reference x1))))))))
            p2 (.dict (dictSet pd2 "Resources"
              (.dict (dictSet .nil "XObject"
                (.dict (dictSet .nil "HeaderFooter" (.reference x2)))))))) := by
      simp only [add_xobject_to_page_resources, hs1p2, hres2, dictGet]
    refine ⟨_, _, dictSet .nil "XObject" (.dict (dictSet .nil "HeaderFooter" (.reference x1))),
      dictSet .nil "XObject" (.dict (dictSet .nil "HeaderFooter" (.reference x2))),
      e1, e2, ?_, ?_, ?_, ?_, ?_, ?_⟩
    · rw [storeGet_insert_ne _ _ _ _ hne, storeGet_insert_self]
    · rw [storeGet_insert_self]
    · intro heq
      simp only [dictSet] at heq
      injection heq with hk hv hr
      injection hv with hv2
      injection hv2 with hk2 hv3 hr2
      injection hv3 with hv4
      exact hx hv4
    · exact dictGet_dictSet_self _ _ _
    · exact dictGet_dictSet_self _ _ _
    · intro id hne1 hne2
      rw [storeGet_insert_ne _ _ _ _ hne2, storeGet_insert_ne _ _ _ _ hne1]

/-- C6 witness: the two leaf pages of exDoc2 inherit Resources from their
common Pages ancestor by reference; stamping both yields distinct
page-owned Resources and leaves every other object unchanged. -/
theorem resources_never_shared_mutated_witness :
    storeGet exDoc2.objects (3, 0) = some (.dict (.cons "Type" (.name "Page") .nil))
    ∧ (∃ s1 s2 r1 r2,
        add_xobject_to_page_resources exDoc2.objects (3, 0) (7, 0) = .ok s1
        ∧ add_xobject_to_page_resources s1 (4, 0) (8, 0) = .ok s2
        ∧ storeGet s2 (3, 0)
            = some (.dict (dictSet (.cons "Type" (.name "Page") .nil) "Resources" (.dict r1)))
        ∧ storeGet s2 (4, 0)
            = some (.dict (dictSet (.cons "Type" (.name "Page") .nil) "Resources" (.dict r2)))
        ∧ r1 ≠ r2
        ∧ dictGet r1 "XObject" = some (.dict (dictSet .nil "HeaderFooter" (.reference (7, 0))))
        ∧ dictGet r2 "XObject" = some (.dict (dictSet .nil "HeaderFooter" (.reference (8, 0))))
        ∧ (∀ id, id ≠ (3, 0) → id ≠ (4, 0) → storeGet s2 id = storeGet exDoc2.objects id)) :=
  ⟨rfl, resources_never_shared_mutated.2 exDoc2.objects (3, 0) (4, 0) (7, 0) (8, 0)
    (.cons "Type" (.name "Page") .nil) (.cons "Type" (.name "Page") .nil)
    (by decide) (by decide) rfl rfl rfl rfl⟩

/-- C7 (corrected claim): in every footer zone it is the LAST line that
sits at the fixed offset 30pt above the page's bottom edge; each
subsequent line steps downward by the line height 1.2·s from the first
line at 30 + (n-1)·1.2·s, so a zone with more lines pushes its top line
higher rather than its bottom line lower. -/
theorem footer_zone_layout (s : ℚ) (n i : Nat) (hn : 1 ≤ n) :
    footer_line_y s n (n - 1) = 30
    ∧ (i + 1 < n → footer_line_y s n (i + 1) = footer_line_y s n i - s * 1.2)
    ∧ (∀ m, n < m → 0 < s → footer_line_y s n 0 < footer_line_y s m 0) := by
  refine ⟨?_, ?_, ?_⟩
  · unfold footer_line_y footer_top line_height
    ring
  · intro _
    unfold footer_line_y footer_top line_height
    push_cast
    ring
  · intro m hm hs
    unfold footer_line_y footer_top line_height
    have h1 : ((n - 1 : Nat) : ℚ) < ((m - 1 : Nat) : ℚ) := by
      have h2 : n - 1 < m - 1 := by omega
      exact_mod_cast h2
    have hlh : (0 : ℚ) < s * 1.2 := by
      have h3 : (0 : ℚ) < 1.2 := by norm_num
      exact mul_pos hs h3
    push_cast
    nlinarith [mul_lt_mul_of_pos_right h1 hlh]

/-- C7 counterexample: the first (top) line of a footer zone does not sit
at a fixed offset above the bottom edge — at font size 10 it sits at 30pt
for a one-line zone but at 42pt for a two-line zone; it is the bottom
line that is fixed. -/
theorem footer_first_line_offset_varies :
    footer_line_y 10 1 0 = 30 ∧ footer_line_y 10 2 0 = 42 := by
  constructor <;> norm_num [footer_line_y, footer_top, line_height]

/-- C7 witness: the amended layout at font size 10 with a two-line zone. -/
theorem footer_zone_layout_witness :
    (1 : Nat) ≤ 2
    ∧ footer_line_y 10 2 (2 - 1) = 30
    ∧ (0 + 1 < 2 → footer_line_y 10 2 (0 + 1) = footer_line_y 10 2 0 - 10 * 1.2)
    ∧ (∀ m, 2 < m → (0 : ℚ) < 10 → footer_line_y 10 2 0 < footer_line_y 10 m 0) :=
  ⟨by decide, (footer_zone_layout 10 2 0 (by decide)).1,
    (footer_zone_layout 10 2 0 (by decide)).2.1,
    (footer_zone_layout 10 2 0 (by decide)).2.2⟩

/-- C8 (corrected claim): expand_placeholders replaces every occurrence of
the exact tokens [page]/[PAGE] with the current 1-based page number,
[pages]/[PAGES] with the total page count, and [date]/[DATE] with the
formatted date (or the empty string when no date was supplied) — but only
the all-lowercase and all-uppercase spellings are recognized; a mixed-case
token such as [Page] is left unchanged. -/
theorem expand_placeholders_exact_case :
    expand_placeholders "Page [page] of [pages]" 3 14 none = "Page 3 of 14"
    ∧ expand_placeholders "[PAGE]-[PAGES]" 2 9 none = "2-9"
    ∧ expand_placeholders "[date]" 1 1 none = ""
    ∧ expand_placeholders "due [DATE]" 1 2 (some (2024, 11, 20)) = "due November 20, 2024"
    ∧ expand_placeholders "[date]" 1 2 (some (2026, 1, 7)) = "January 7, 2026"
    ∧ expand_placeholders "[page][page]" 5 9 none = "55"
    ∧ expand_placeholders "[Page]" 3 14 none = "[Page]" := by decide

/-- C8 counterexample: the bracket keyword is not matched
case-insensitively — mixed-case tokens are not replaced. -/
theorem expand_placeholders_mixed_case_unreplaced :
    expand_placeholders "[Page] [pAgE] [Date]" 3 14 (some (2024, 11, 20))
      = "[Page] [pAgE] [Date]" := by decide

/-- C9 (corrected claim): newline, the pipe character, and the exact-case
break tags [br], [BR], <br>, <BR>, <br/>, <BR/>, <br /> and <BR /> are
equivalent, consumed delimiters that may be mixed within one field — but
matching is not case-insensitive: a mixed-case tag such as <Br> is not
recognized. -/
theorem parse_multiline_delimiters :
    parse_multiline_text "A|B" = ["A", "B"]
    ∧ parse_multiline_text "A[br]B" = ["A", "B"]
    ∧ parse_multiline_text "A<br>B" = ["A", "B"]
    ∧ parse_multiline_text "A\nB" = ["A", "B"]
    ∧ parse_multiline_text "A\nB|C[br]D<br>E" = ["A", "B", "C", "D", "E"]
    ∧ parse_multiline_text "A[BR]B" = ["A", "B"]
    ∧ parse_multiline_text "A<BR>B" = ["A", "B"]
    ∧ parse_multiline_text "A<br/>B" = ["A", "B"]
    ∧ parse_multiline_text "A<BR/>B" = ["A", "B"]
    ∧ parse_multiline_text "A<br />B" = ["A", "B"]
    ∧ parse_multiline_text "A<BR />B" = ["A", "B"]
    ∧ parse_multiline_text "A<Br>B" = ["A<Br>B"] := by decide

/-- C9 counterexample: the HTML-style break variants are not matched
case-insensitively — a mixed-case <Br> is not treated as a delimiter. -/
theorem parse_multiline_mixed_case_br_not_split :
    parse_multiline_text "A<Br>B" = ["A<Br>B"]
    ∧ parse_multiline_text "A<bR/>B" = ["A<bR/>B"] := by decide

/-! Transform detection (spec §4.3, modelled from the spec). -/

theorem splitAtCm_none : ∀ l : List String, "cm" ∉ l → splitAtCm l = none := by
  intro l
  induction l with
  | nil => intro _; rfl
  | cons t rest ih =>
    intro h
    rw [List.mem_cons] at h
    push_neg at h
    have hne : t ≠ "cm" := Ne.symm h.1
    simp [splitAtCm, if_neg hne, ih h.2]

theorem splitAtCm_append : ∀ (l post : List String), "cm" ∉ l →
    splitAtCm (l ++ "cm" :: post) = some l := by
  intro l
  induction l with
  | nil => intro post _; simp [splitAtCm]
  | cons t rest ih =>
    intro post h
    rw [List.mem_cons] at h
    push_neg at h
    have hne : t ≠ "cm" := Ne.symm h.1
    simp [splitAtCm, if_neg hne, ih post h.2]

theorem parseNumTok_cm_none : parseNumTok "cm" = none := by decide

theorem parseAll_not_cm : ∀ (ops : List String) (qs : List ℚ),
    parseAll ops = some qs → "cm" ∉ ops := by
  intro ops
  induction ops with
  | nil => intro qs _; simp
  | cons t rest ih =>
    intro qs hp hmem
    rcases List.mem_cons.1 hmem with h1 | h1
    · subst h1
      simp only [parseAll, parseNumTok_cm_none] at hp
      exact Option.noConfusion hp
    · simp only [parseAll] at hp
      cases hq : parseNumTok t with
      | none => rw [hq] at hp; simp at hp
      | some q =>
        rw [hq] at hp
        cases hr : parseAll rest with
        | none => rw [hr] at hp; simp at hp
        | some qs0 => exact ih qs0 hr h1

/-- C5 (spec-modelled): the transform detector reports identity when no
concat-matrix operator occurs; when the first cm's 6 numeric operands are
preceded anywhere earlier in the stream (or as the very first token) by
the graphics-state-save operator q, it reports identity; otherwise it
reports the literal matrix.  In particular content beginning
"q\n0.5 0 0 0.5 0 0 cm" reports identity and content beginning
"0.5 0 0 0.5 0 0 cm" with no preceding save reports [0.5,0,0,0.5,0,0]. -/
theorem transform_detection_bracket_rule :
    (∀ tokens : List String, "cm" ∉ tokens → detectTokens tokens = identityMatrix)
    ∧ (∀ (pre ops post : List String) (qs : List ℚ),
        "cm" ∉ pre → ops.length = 6 → parseAll ops = some qs →
        detectTokens (pre ++ ops ++ "cm" :: post)
          = if "q" ∈ pre then identityMatrix else qs)
    ∧ detect "q\n0.5 0 0 0.5 0 0 cm\nBT ET" = identityMatrix
    ∧ detect "0.5 0 0 0.5 0 0 cm\nBT ET" = [0.5, 0, 0, 0.5, 0, 0]
    ∧ detect "BT ET" = identityMatrix := by
  have hnone : ∀ tokens : List String, "cm" ∉ tokens → detectTokens tokens = identityMatrix := by
    intro tokens h
    simp only [detectTokens, splitAtCm_none tokens h]
  have hgen : ∀ (pre ops post : List String) (qs : List ℚ),
      "cm" ∉ pre → ops.length = 6 → parseAll ops = some qs →
      detectTokens (pre ++ ops ++ "cm" :: post)
        = if "q" ∈ pre then identityMatrix else qs := by
    intro pre ops post qs hcm hlen hparse
    have hopscm : "cm" ∉ ops := parseAll_not_cm ops qs hparse
    have hprecm : "cm" ∉ pre ++ ops := by
      intro hmem
      rcases List.mem_append.1 hmem with h | h
      · exact hcm h
      · exact hopscm h
    have hsplit : splitAtCm (pre ++ ops ++ "cm" :: post) = some (pre ++ ops) :=
      splitAtCm_append _ post hprecm
    simp only [detectTokens, hsplit]
    have hlen2 : (pre ++ ops).length = pre.length + 6 := by
      rw [List.length_append, hlen]
    rw [if_neg (by omega)]
    have hsub : (pre ++ ops).length - 6 = pre.length := by omega
    rw [hsub, List.take_left, List.drop_left, hparse]
  have h05a : parseNumTok "0.5"
      = some (((0 : ℕ) : ℚ) + ((5 : ℕ) : ℚ) / (10 : ℚ) ^ (1 : ℕ)) := rfl
  have h05 : parseNumTok "0.5" = some 0.5 := by
    rw [h05a]
    norm_num
  have h0a : parseNumTok "0" = some ((0 : ℕ) : ℚ) := rfl
  have h0 : parseNumTok "0" = some 0 := by
    rw [h0a]
    norm_num
  have hparse05 : parseAll ["0.5", "0", "0", "0.5", "0", "0"]
      = some [0.5, 0, 0, 0.5, 0, 0] := by
    simp [parseAll, h05, h0]
  refine ⟨hnone, hgen, ?_, ?_, ?_⟩
  · have ht : tokenize "q\n0.5 0 0 0.5 0 0 cm\nBT ET"
        = ["q", "0.5", "0", "0", "0.5", "0", "0", "cm", "BT", "ET"] := by decide
    unfold detect
    rw [ht]
    have := hgen ["q"] ["0.5", "0", "0", "0.5", "0", "0"] ["BT", "ET"]
      [0.5, 0, 0, 0.5, 0, 0] (by decide) (by decide) hparse05
    simpa using this
  · have ht : tokenize "0.5 0 0 0.5 0 0 cm\nBT ET"
        = ["0.5", "0", "0", "0.5", "0", "0", "cm", "BT", "ET"] := by decide
    unfold detect
    rw [ht]
    have := hgen [] ["0.5", "0", "0", "0.5", "0", "0"] ["BT", "ET"]
      [0.5, 0, 0, 0.5, 0, 0] (by decide) (by decide) hparse05
    simpa using this
  · have ht : tokenize "BT ET" = ["BT", "ET"] := by decide
    unfold detect
    rw [ht]
    exact hnone _ (by decide)

/-- C5 witness: the bracket rule applied at a concrete bracketed token
stream with integer operands. -/
theorem transform_detection_bracket_rule_witness :
    ("cm" ∉ (["q"] : List String))
    ∧ parseAll ["2", "0", "0", "2", "0", "0"] = some [2, 0, 0, 2, 0, 0]
    ∧ detectTokens (["q"] ++ ["2", "0", "0", "2", "0", "0"] ++ "cm" :: [])
        = if "q" ∈ (["q"] : List String) then identityMatrix else [2, 0, 0, 2, 0, 0] :=
  ⟨by decide, by decide,
    transform_detection_bracket_rule.2.1 ["q"] ["2", "0", "0", "2", "0", "0"] []
      [2, 0, 0, 2, 0, 0] (by decide) (by decide) (by decide)⟩

end PdfHandouts
